import Mathlib

set_option maxRecDepth 10000

/-!
Shallow embedding of the KeelCast podcast application core: the RSS ingestion
pipeline (feed pre-validation, per-item Zod validation, audio URL extraction,
episode normalization, the per-item skip/abort loop of `fetchEpisodes`, and the
`CreatePodcast` persistence filter) together with the cursor-based pagination of
the `UnlistenedEpisodes` endpoint (base64/JSON cursor codec, page-size clamping,
keyset filter).

Modelling conventions:
* JavaScript values occurring in parsed feeds are modelled by `JSVal`; JS
  numbers are modelled as integers (all numeric values the pipeline handles are
  whole numbers of seconds / milliseconds).
* JS strings are modelled as Lean `String` (unicode scalar sequences).
  `String.prototype.includes`, `toLowerCase`, `split`, `trim`, `startsWith` and
  `length` are given explicit structural definitions over `String.data` so that
  every definition evaluates by kernel reduction.
* Platform capabilities are parameters: `new URL` validity is a `String → Bool`
  parameter, `Date` parsing is a `String → Option Int` parameter (epoch ms),
  network fetch and the external `rss-parser` library are oracle values carried
  in `IngestEnv`.
* `Buffer`'s base64 codec, UTF-8 encoding and the `JSON.stringify`/`JSON.parse`
  pair used by the pagination cursor are implemented explicitly; `JSON.parse`
  is modelled by a parser specialised to the exact document shape that
  `encodeCursor` serialises (its behaviour on other JSON documents is not
  needed by any claim).
-/

/-- Model of loosely-typed JavaScript values (the shapes produced by
`rss-parser` and consumed by the extractor and the Zod schemas). -/
inductive JSVal where
  | undefined
  | null
  | bool (b : Bool)
  | num (n : Int)
  | str (s : String)
  | arr (elems : List JSVal)
  | obj (fields : List (String × JSVal))

/-- First-match association lookup, `undefined` when the key is absent
(JS property access on a plain object). -/
def getField : List (String × JSVal) → String → JSVal
  | [], _ => .undefined
  | (k, v) :: rest, key => if k == key then v else getField rest key

/-- JS property access `v[key]` (with optional chaining semantics: access on a
non-object yields `undefined`). -/
def JSVal.get : JSVal → String → JSVal
  | .obj fs, key => getField fs key
  | _, _ => .undefined

/-- JavaScript truthiness of a value. -/
def jsTruthy : JSVal → Bool
  | .undefined => false
  | .null => false
  | .bool b => b
  | .num n => n != 0
  | .str s => s != ""
  | .arr _ => true
  | .obj _ => true

/-- JS `a ?? b` (nullish coalescing). -/
def jsNullish (a b : JSVal) : JSVal :=
  match a with
  | .undefined => b
  | .null => b
  | v => v

/-- JS `a || b` (logical or, returns first truthy operand else the second). -/
def jsOrVal (a b : JSVal) : JSVal :=
  if jsTruthy a then a else b

/-- Boolean list prefix test (model of code-unit-wise string prefix). -/
def isPreB : List Char → List Char → Bool
  | [], _ => true
  | _ :: _, [] => false
  | a :: as, b :: bs => a == b && isPreB as bs

/-- Substring occurrence over char lists (`String.prototype.includes`). -/
def listHasSub (pat : List Char) : List Char → Bool
  | [] => pat.isEmpty
  | b :: bs => isPreB pat (b :: bs) || listHasSub pat bs

/-- JS `s.includes(pat)`. -/
def strIncludes (s pat : String) : Bool := listHasSub pat.data s.data

/-- JS `s.startsWith(pat)`. -/
def strStarts (s pat : String) : Bool := isPreB pat.data s.data

/-- JS `s.toLowerCase()` (ASCII case folding, which is all the audio heuristics
rely on). -/
def jsToLower (s : String) : String := ⟨s.data.map Char.toLower⟩

/-- Whitespace recognised when JS trims strings / parses numbers. -/
def isWsCh (c : Char) : Bool :=
  c == ' ' || c == '\t' || c == '\n' || c == '\r' || c == '\x0b' || c == '\x0c'

/-- Trim whitespace from both ends of a char list. -/
def trimChars (l : List Char) : List Char :=
  ((l.dropWhile isWsCh).reverse.dropWhile isWsCh).reverse

/-- Decimal digit test. -/
def isDigitCh (c : Char) : Bool := 48 ≤ c.toNat && c.toNat ≤ 57

/-- Numeric value of the chars of a decimal numeral (most significant first). -/
def digitsToNat (ds : List Char) : Nat :=
  ds.foldl (fun a c => a * 10 + (c.toNat - 48)) 0

/-- Longest digit prefix of a char list, and the remainder. -/
def spanDigits : List Char → (List Char × List Char)
  | [] => ([], [])
  | c :: rest =>
    if isDigitCh c then
      let p := spanDigits rest
      (c :: p.1, p.2)
    else ([], c :: rest)

/-- JS `parseInt(s, 10)`: skip whitespace, optional sign, then the longest
digit prefix; `NaN` (modelled as `none`) when no digit follows. -/
def jsParseIntBase10 (s : String) : Option Int :=
  let l := s.data.dropWhile isWsCh
  match l with
  | '-' :: rest =>
    let p := spanDigits rest
    if p.1.isEmpty then none else some (-(digitsToNat p.1 : Int))
  | '+' :: rest =>
    let p := spanDigits rest
    if p.1.isEmpty then none else some (digitsToNat p.1)
  | rest =>
    let p := spanDigits rest
    if p.1.isEmpty then none else some (digitsToNat p.1)

/-- A JS number that is either a real (integral) number or `NaN`.  `Number(x)`
conversions and arithmetic on the colon-separated duration components are
carried out in this type. -/
inductive JSNumV where
  | nan
  | int (n : Int)
deriving DecidableEq

/-- JS `Number(s)` for a string: whitespace-trimmed; empty becomes `0`,
an optionally signed decimal numeral becomes its value, anything else is `NaN`
(the model covers the integral numerals that duration components take; decimal
point / hex / exponent literals of JS are collapsed into `NaN`). -/
def jsNumberOfString (s : String) : JSNumV :=
  let l := trimChars s.data
  match l with
  | [] => .int 0
  | '-' :: rest =>
    if rest ≠ [] && rest.all isDigitCh then .int (-(digitsToNat rest : Int)) else .nan
  | '+' :: rest =>
    if rest ≠ [] && rest.all isDigitCh then .int (digitsToNat rest) else .nan
  | rest =>
    if rest.all isDigitCh then .int (digitsToNat rest) else .nan

/-- Multiplication of a JS number by a constant (`NaN` propagates). -/
def jsMulC : JSNumV → Int → JSNumV
  | .nan, _ => .nan
  | .int n, k => .int (n * k)

/-- Addition of JS numbers (`NaN` propagates). -/
def jsAddV : JSNumV → JSNumV → JSNumV
  | .nan, _ => .nan
  | _, .nan => .nan
  | .int a, .int b => .int (a + b)

/-- JS `s.split(sep)` for a single-character separator, over char lists:
always returns at least one (possibly empty) piece. -/
def splitCh (sep : Char) : List Char → List (List Char)
  | [] => [[]]
  | x :: t =>
    match splitCh sep t with
    | h :: r => if x == sep then [] :: h :: r else (x :: h) :: r
    | [] => [[x]]

/-! ## Audio URL extraction (`extractFromEnclosure`, `extractAudioUrlFromItem`) -/

/-- Source `isMp3Url`: lowercased URL text contains explicit MP3 evidence. -/
def isMp3Url (url : String) : Bool :=
  let lowerUrl := jsToLower url
  strIncludes lowerUrl ".mp3" || strIncludes lowerUrl "audio/mpeg" ||
    strIncludes lowerUrl "audio/mp3"

/-- Source `isAudioUrl`: lowercased URL text matches the broader audio
extension / MIME substring list. -/
def isAudioUrl (url : String) : Bool :=
  let lowerUrl := jsToLower url
  strIncludes lowerUrl ".mp3" || strIncludes lowerUrl ".m4a" ||
    strIncludes lowerUrl ".wav" || strIncludes lowerUrl ".ogg" ||
    strIncludes lowerUrl ".aac" || strIncludes lowerUrl "audio/mpeg" ||
    strIncludes lowerUrl "audio/mp3" || strIncludes lowerUrl "audio/mp4" ||
    strIncludes lowerUrl "audio/wav" || strIncludes lowerUrl "audio/ogg" ||
    strIncludes lowerUrl "audio/aac"

/-- Source `isAudioType`: `enc?.type || enc?.$?.type || enc?.attributes?.type`
is a string whose lowercase text contains "audio". -/
def isAudioType (enc : JSVal) : Bool :=
  let t := jsOrVal (enc.get "type") (jsOrVal ((enc.get "$").get "type") ((enc.get "attributes").get "type"))
  match t with
  | .str s => strIncludes (jsToLower s) "audio"
  | _ => false

/-- First key of `keys` whose value on `enc` is truthy and a string
(the `possibleUrlKeys` loops of `getUrlFromEnclosure`). -/
def firstStrKey (enc : JSVal) : List String → Option JSVal
  | [] => none
  | k :: rest =>
    match enc.get k with
    | .str s => if s != "" then some (.str s) else firstStrKey enc rest
    | _ => firstStrKey enc rest

/-- JS `typeof v === 'object'` (for non-null values reaching that check:
arrays and plain objects; `null` is also 'object' but is excluded by the
truthiness guard at the use site, which we fold in by treating it there). -/
def typeofObject : JSVal → Bool
  | .null => true
  | .arr _ => true
  | .obj _ => true
  | _ => false

/-- Source `getUrlFromEnclosure`: returns the url-carrying value found on the
candidate, or `none` (JS `null`).  Note the first four probes return the raw
property value whatever its type; only the `possibleUrlKeys` loops insist on a
string. -/
def getUrlFromEnclosure (enc : JSVal) : Option JSVal :=
  match enc with
  | .str s => some (.str s)
  | _ =>
    if jsTruthy (enc.get "url") then some (enc.get "url")
    else if jsTruthy ((enc.get "$").get "url") then some ((enc.get "$").get "url")
    else if jsTruthy (enc.get "href") then some (enc.get "href")
    else if jsTruthy (enc.get "link") then some (enc.get "link")
    else if jsTruthy enc && typeofObject enc then
      match firstStrKey enc ["url", "href", "link", "src"] with
      | some v => some v
      | none =>
        if jsTruthy (enc.get "attributes") then
          firstStrKey (enc.get "attributes") ["url", "href", "link", "src"]
        else none
    else none

/-- Message of the TypeError raised when a truthy non-string url value meets
`url.toLowerCase()` inside `isMp3Url`/`isAudioUrl`. -/
def typeErrMsg : String := "TypeError: url.toLowerCase is not a function"

/-- First pass over an enclosure array: `if (url && isMp3Url(url))`.
A truthy non-string url raises a TypeError (modelled as `.error`). -/
def mp3Pass : List JSVal → Except String (Option String)
  | [] => .ok none
  | e :: rest =>
    match getUrlFromEnclosure e with
    | none => mp3Pass rest
    | some u =>
      if jsTruthy u then
        match u with
        | .str s => if isMp3Url s then .ok (some s) else mp3Pass rest
        | _ => .error typeErrMsg
      else mp3Pass rest

/-- Second pass over an enclosure array:
`if (url && (isAudioUrl(url) || isAudioType(enc)))`. -/
def audioPass : List JSVal → Except String (Option String)
  | [] => .ok none
  | e :: rest =>
    match getUrlFromEnclosure e with
    | none => audioPass rest
    | some u =>
      if jsTruthy u then
        match u with
        | .str s => if isAudioUrl s || isAudioType e then .ok (some s) else audioPass rest
        | _ => .error typeErrMsg
      else audioPass rest

/-- Source `extractFromEnclosure`: arrays go through the two-pass priority
scan, a single candidate is accepted iff its truthy string URL passes
`isMp3Url` or `isAudioUrl` (the `isAudioType` attribute check is only applied
in the array's second pass). -/
def extractFromEnclosure (encLike : JSVal) : Except String (Option String) :=
  match encLike with
  | .arr xs =>
    match mp3Pass xs with
    | .error e => .error e
    | .ok (some u) => .ok (some u)
    | .ok none => audioPass xs
  | enc =>
    match getUrlFromEnclosure enc with
    | none => .ok none
    | some u =>
      if jsTruthy u then
        match u with
        | .str s => if isMp3Url s || isAudioUrl s then .ok (some s) else .ok none
        | _ => .error typeErrMsg
      else .ok none

/-- Source `extractAudioUrlFromItem`: tries `enclosure ?? enclosures`, then
`media:content ?? mediaContent`, then `(media:group ?? mediaGroup).content ??
.contents`. -/
def extractAudioUrlFromItem (item : JSVal) : Except String (Option String) :=
  let enclosure := if jsTruthy item then jsNullish (item.get "enclosure") (item.get "enclosures") else .null
  match (if jsTruthy enclosure then extractFromEnclosure enclosure else .ok none) with
  | .error e => .error e
  | .ok (some u) => .ok (some u)
  | .ok none =>
    let mediaContent := jsNullish (item.get "media:content") (item.get "mediaContent")
    match (if jsTruthy mediaContent then extractFromEnclosure mediaContent else .ok none) with
    | .error e => .error e
    | .ok (some u) => .ok (some u)
    | .ok none =>
      let mediaGroup := jsNullish (item.get "media:group") (item.get "mediaGroup")
      if jsTruthy mediaGroup then
        let groupContent := jsNullish (mediaGroup.get "content") (mediaGroup.get "contents")
        match (if jsTruthy groupContent then extractFromEnclosure groupContent else .ok none) with
        | .error e => .error e
        | .ok r => .ok r
      else .ok none

/-! ## Zod schema validation (`RSSItemSchema`) -/

/-- Result of `RSSItemSchema.parse`: the fields the schema keeps (Zod strips
unknown keys).  `duration` / `itunesDuration` are `undefined` when absent,
otherwise a string or number value; `enclosure` is the parsed enclosure
payload. -/
structure ValidatedRSSItem where
  title : String
  link : String
  contentSnippet : Option String
  content : Option String
  pubDate : Option String
  duration : JSVal
  itunesDuration : JSVal
  enclosure : JSVal

/-- Zod `z.string().optional()`: absent is fine, a present value must be a
string; anything else is a validation failure. -/
def zodOptStr : JSVal → Option (Option String)
  | .undefined => some none
  | .str s => some (some s)
  | _ => none

/-- Zod `z.union([z.string(), z.number()]).optional()` for the duration
fields, kept as the raw `JSVal` (`undefined` when absent). -/
def zodOptStrNum : JSVal → Option JSVal
  | .undefined => some .undefined
  | .str s => some (.str s)
  | .num n => some (.num n)
  | _ => none

/-- First branch of `RSSEnclosureSchema`:
`z.object({ url: z.string().url(), type: z.string().optional(), length:
z.union([z.string(), z.number()]).optional() })`.  On success returns the
parsed (unknown-key-stripped) object. -/
def zodEncPlain (isValidURL : String → Bool) (enc : JSVal) : Option JSVal :=
  match enc with
  | .obj _ =>
    match enc.get "url" with
    | .str u =>
      if isValidURL u then
        match zodOptStr (enc.get "type") with
        | none => none
        | some ty =>
          match zodOptStrNum (enc.get "length") with
          | none => none
          | some len =>
            some (.obj (("url", .str u) ::
              ((match ty with | some t => [("type", JSVal.str t)] | none => []) ++
               (match len with | .undefined => [] | v => [("length", v)]))))
      else none
    | _ => none
  | _ => none

/-- Second branch of `RSSEnclosureSchema`: the same object nested under a
`$` attribute key. -/
def zodEncDollar (isValidURL : String → Bool) (enc : JSVal) : Option JSVal :=
  match enc with
  | .obj _ =>
    match zodEncPlain isValidURL (enc.get "$") with
    | some inner => some (.obj [("$", inner)])
    | none => none
  | _ => none

/-- `RSSEnclosureSchema` (the union of the two object shapes). -/
def zodEncOne (isValidURL : String → Bool) (enc : JSVal) : Option JSVal :=
  match zodEncPlain isValidURL enc with
  | some r => some r
  | none => zodEncDollar isValidURL enc

/-- `z.array(RSSEnclosureSchema)`: every element must parse. -/
def zodEncList (isValidURL : String → Bool) : List JSVal → Option (List JSVal)
  | [] => some []
  | e :: rest =>
    match zodEncOne isValidURL e with
    | none => none
    | some r =>
      match zodEncList isValidURL rest with
      | none => none
      | some rs => some (r :: rs)

/-- The item schema's enclosure union
`z.union([RSSEnclosureSchema, z.array(RSSEnclosureSchema), z.any()])` followed
by the `.refine` that rejects `undefined`/`null`.  `none` is a `ZodError`. -/
def zodEnclosureField (isValidURL : String → Bool) (e : JSVal) : Option JSVal :=
  let parsed :=
    match zodEncOne isValidURL e with
    | some r => r
    | none =>
      match e with
      | .arr xs =>
        match zodEncList isValidURL xs with
        | some rs => .arr rs
        | none => e
      | _ => e
  match parsed with
  | .undefined => none
  | .null => none
  | v => some v

/-- Source `RSSItemSchema.parse` (per-item Zod validation): required non-empty
`title`, required `link` that is a valid URL, optional string
`contentSnippet`/`content`/`pubDate`, optional string-or-number
`duration`/`itunes:duration`, a non-null enclosure, and the refinement that at
least one of `contentSnippet`/`content` is (truthily) present.  `none` models
a thrown `ZodError`. -/
def zodParseItem (isValidURL : String → Bool) (item : JSVal) : Option ValidatedRSSItem :=
  match item with
  | .obj _ =>
    match item.get "title" with
    | .str t =>
      if t.length ≥ 1 then
        match item.get "link" with
        | .str lnk =>
          if isValidURL lnk then
            match zodOptStr (item.get "contentSnippet") with
            | none => none
            | some snippet =>
              match zodOptStr (item.get "content") with
              | none => none
              | some content =>
                match zodOptStr (item.get "pubDate") with
                | none => none
                | some pubDate =>
                  match zodOptStrNum (item.get "duration") with
                  | none => none
                  | some dur =>
                    match zodOptStrNum (item.get "itunes:duration") with
                    | none => none
                    | some itdur =>
                      match zodEnclosureField isValidURL (item.get "enclosure") with
                      | none => none
                      | some enc =>
                        if (match snippet with | some s => s != "" | none => false) ||
                           (match content with | some s => s != "" | none => false) then
                          some ⟨t, lnk, snippet, content, pubDate, dur, itdur, enc⟩
                        else none
          else none
        | _ => none
      else none
    | _ => none
  | _ => none

/-- The (stripped) JS object that `RSSItemSchema.parse` returns, as consumed by
`extractAudioUrlFromItem` inside `processValidatedItem`. -/
def validatedItemToJS (v : ValidatedRSSItem) : JSVal :=
  .obj ([("title", JSVal.str v.title), ("link", JSVal.str v.link)] ++
    (match v.contentSnippet with | some s => [("contentSnippet", JSVal.str s)] | none => []) ++
    (match v.content with | some s => [("content", JSVal.str s)] | none => []) ++
    (match v.pubDate with | some s => [("pubDate", JSVal.str s)] | none => []) ++
    (match v.duration with | .undefined => [] | d => [("duration", d)]) ++
    (match v.itunesDuration with | .undefined => [] | d => [("itunes:duration", d)]) ++
    [("enclosure", v.enclosure)])

/-! ## Episode normalization (`processValidatedItem`) -/

/-- Canonical episode record handed to the database
(`EpisodeInsert = Omit<Episode, 'id' | 'createdAt' | 'updatedAt'>`); the
column types allow a null `audioUrl`, hence `Option String` here. -/
structure EpisodeInsert where
  podcastId : String
  title : String
  description : Option String
  url : String
  audioUrl : Option String
  publishedAt : Int
  durationSeconds : Option JSNumV
deriving DecidableEq

/-- Duration normalization of `processValidatedItem` on the raw
`duration` / `itunes:duration` field values: colon strings are read as
`H:MM:SS` (3 parts) or `M:SS` (2 parts) via JS `Number` on each part, other
strings through `parseInt(s, 10)`, numbers are taken as-is; everything else
leaves the duration `null`.  Note the JS-truthiness guard: a numeric `0` and
the empty string are falsy and fall through. -/
def computeDurationSeconds (dur itdur : JSVal) : Option JSNumV :=
  if jsTruthy dur || jsTruthy itdur then
    match jsOrVal dur itdur with
    | .str s =>
      if strIncludes s ":" then
        match (splitCh ':' s.data).map (fun l => jsNumberOfString ⟨l⟩) with
        | [p0, p1, p2] => some (jsAddV (jsAddV (jsMulC p0 3600) (jsMulC p1 60)) p2)
        | [p0, p1] => some (jsAddV (jsMulC p0 60) p1)
        | _ => none
      else
        match jsParseIntBase10 s with
        | some n => some (.int n)
        | none => none
    | .num n => some (.int n)
    | _ => none
  else none

/-- Errors a single item's processing can raise, by provenance: the thrown
`ZodError`, the three `Error`s thrown in `processValidatedItem`, and any other
exception (such as the TypeError out of the URL heuristics), carried with its
message. -/
inductive ProcError where
  | zodError
  | noAudioUrl (title : String)
  | invalidAudioUrl (title url : String)
  | extractFailed (title : String)
  | other (msg : String)
deriving DecidableEq

/-- Message text of each error, as constructed by the source `throw new
Error(...)` statements. -/
def errMessage : ProcError → String
  | .zodError => "ZodError"
  | .noAudioUrl title => "No audio URL found for episode \"" ++ title ++ "\" - skipping invalid episode"
  | .invalidAudioUrl title url => "Invalid audio URL for episode \"" ++ title ++ "\": " ++ url
  | .extractFailed title => "Failed to extract valid audio URL for episode \"" ++ title ++ "\""
  | .other msg => msg

/-- Source `processValidatedItem` (with `validateUrls = false`, as every caller
passes; the HTTP HEAD verification is commented out in the source).
`isValidURL` models the `new URL` constructor succeeding, `parseDate` models
`new Date(s).getTime()` when not NaN, `now` the ingestion timestamp. -/
def processValidatedItem (isValidURL : String → Bool) (parseDate : String → Option Int)
    (now : Int) (v : ValidatedRSSItem) : Except ProcError EpisodeInsert :=
  let durationSeconds := computeDurationSeconds v.duration v.itunesDuration
  let publishedAt :=
    match v.pubDate with
    | some s => if s != "" then (match parseDate s with | some t => t | none => now) else now
    | none => now
  match extractAudioUrlFromItem (validatedItemToJS v) with
  | .error msg => .error (.other msg)
  | .ok audioUrl =>
    match audioUrl with
    | none => .error (.noAudioUrl v.title)
    | some u =>
      if u = "" then .error (.noAudioUrl v.title)
      else if isValidURL u then
        if u = "" then .error (.extractFailed v.title)
        else
          .ok { podcastId := ""
                title := v.title
                description :=
                  match v.contentSnippet with
                  | some s => if s != "" then some s else (match v.content with | some c => if c != "" then some c else none | none => none)
                  | none => match v.content with | some c => if c != "" then some c else none | none => none
                url := v.link
                audioUrl := some u
                publishedAt := publishedAt
                durationSeconds := durationSeconds }
      else .error (.invalidAudioUrl v.title u)

/-! ## The per-item loop of `fetchEpisodes` -/

/-- The catch classification in `fetchEpisodes`' per-item loop: a `ZodError`
is skipped, any other error is skipped exactly when its message text contains
one of the three recognised substrings; otherwise it is rethrown. -/
def caughtByLoop : ProcError → Bool
  | .zodError => true
  | e =>
    strIncludes (errMessage e) "No audio URL found" ||
    strIncludes (errMessage e) "Invalid audio URL" ||
    strIncludes (errMessage e) "audio URL is not accessible"

/-- One item's processing inside the loop: `RSSItemSchema.parse(item)` then
`processValidatedItem`. -/
def processItem (isValidURL : String → Bool) (parseDate : String → Option Int)
    (now : Int) (item : JSVal) : Except ProcError EpisodeInsert :=
  match zodParseItem isValidURL item with
  | none => .error .zodError
  | some v => processValidatedItem isValidURL parseDate now v

/-- The `for` loop of `fetchEpisodes`: successfully processed episodes are
accumulated; a caught error skips the item; an uncaught error propagates and
the accumulated episodes are discarded. -/
def fetchLoop (step : JSVal → Except ProcError EpisodeInsert) :
    List JSVal → Except ProcError (List EpisodeInsert)
  | [] => .ok []
  | i :: rest =>
    match step i with
    | .ok ep =>
      match fetchLoop step rest with
      | .ok eps => .ok (ep :: eps)
      | .error e => .error e
    | .error e => if caughtByLoop e then fetchLoop step rest else .error e

/-! ## Feed pre-validation (`validateRSSFeed`) and `fetchEpisodes` -/

/-- Outcome of the `fetch(rssUrl, ...)` call: a response, a network failure
(`TypeError`), or the 10-second `AbortSignal` timeout. -/
inductive FetchOutcome where
  | response (ok : Bool) (status : Nat) (statusText : String) (contentType : String) (body : String)
  | networkError
  | timeout
deriving DecidableEq

/-- Source `validateRSSFeed`: the three pre-checks on the URL string run
before the network is touched (the fetch outcome is a value parameter, and the
error produced for an invalid URL does not depend on it); then the response
status and body sanity checks.  The content-type check in the source has an
empty body and is a no-op. -/
def validateRSSFeedModel (rssUrl : String) (o : FetchOutcome) : Except String Unit :=
  if rssUrl = "" then .error "RSS feed URL is required"
  else if !(strStarts rssUrl "http://") && !(strStarts rssUrl "https://") then
    .error "Please enter a valid URL starting with http:// or https://"
  else if rssUrl.length > 2000 then .error "URL is too long"
  else
    match o with
    | .networkError => .error "Unable to connect to the RSS feed URL. Please check the URL and try again."
    | .timeout => .error "The RSS feed took too long to respond. Please try again later."
    | .response ok status statusText _ body =>
      if !ok then
        .error ("Unable to fetch RSS feed. Server responded with " ++ toString status ++ ": " ++ statusText)
      else if !(strStarts ⟨trimChars body.data⟩ "<?xml") && !(strIncludes body "<rss") &&
              !(strIncludes body "<feed") then
        .error "The URL does not appear to contain a valid RSS or Atom feed"
      else if !(strIncludes body "<channel>") && !(strIncludes body "<feed") then
        .error "The RSS feed appears to be malformed (missing channel or feed element)"
      else .ok ()

/-- Environment of one `fetchEpisodes` run: the platform capabilities and the
outcomes of the two external calls (HTTP fetch, `rss-parser`'s `parseURL`,
whose failure or 30s timeout is an `Error` carried as a message). -/
structure IngestEnv where
  isValidURL : String → Bool
  parseDate : String → Option Int
  now : Int
  fetchOutcome : FetchOutcome
  parseOutcome : Except String JSVal

/-- Error surfaced by `fetchEpisodes`: a pre-loop failure (URL validation,
fetch, parse) or a propagated per-item error. -/
inductive IngestError where
  | pre (msg : String)
  | item (e : ProcError)
deriving DecidableEq

/-- `const feedItems = Array.isArray(rawFeed.items) ? rawFeed.items : []` —
the feed-level leniency of `fetchEpisodes`. -/
def feedItemsOf (rawFeed : JSVal) : List JSVal :=
  match rawFeed.get "items" with
  | .arr xs => xs
  | _ => []

/-- Source `fetchEpisodes`: empty-URL guard, `validateRSSFeed`, the parse of
the feed, then the per-item loop over `feedItems`. -/
def fetchEpisodesModel (env : IngestEnv) (rssUrl : String) : Except IngestError (List EpisodeInsert) :=
  if rssUrl = "" then .error (.pre "RSS URL is required")
  else
    match validateRSSFeedModel rssUrl env.fetchOutcome with
    | .error m => .error (.pre m)
    | .ok _ =>
      match env.parseOutcome with
      | .error m => .error (.pre m)
      | .ok rawFeed =>
        match fetchLoop (processItem env.isValidURL env.parseDate env.now) (feedItemsOf rawFeed) with
        | .error e => .error (.item e)
        | .ok eps => .ok eps

/-! ## Persistence (`CreatePodcast` subscriber) -/

/-- Truthiness of a nullable string column value. -/
def jsTruthyOptStr : Option String → Bool
  | none => false
  | some s => s != ""

/-- The episode filter loop inside the `CreatePodcast` transaction: an episode
already stored (by url + podcast) is skipped, and an episode with a falsy
`audioUrl` is skipped (`if (!episode.audioUrl) continue`). -/
def filterNewEpisodes (existsInDb : EpisodeInsert → Bool) : List EpisodeInsert → List EpisodeInsert
  | [] => []
  | e :: rest =>
    if existsInDb e then filterNewEpisodes existsInDb rest
    else if !(jsTruthyOptStr e.audioUrl) then filterNewEpisodes existsInDb rest
    else e :: filterNewEpisodes existsInDb rest

/-- The defense-in-depth check before the batch insert: the transaction is
aborted when any episode slated for insert has a falsy `audioUrl`. -/
def insertGuard (newEpisodes : List EpisodeInsert) : Except String Unit :=
  if 0 < newEpisodes.length then
    if 0 < (newEpisodes.filter (fun ep => !(jsTruthyOptStr ep.audioUrl))).length then
      .error "Cannot insert episodes with null audioUrl values"
    else .ok ()
  else .ok ()

/-! ## Cursor codec (`encodeCursor` / `decodeCursor`)

`Buffer.from(JSON.stringify({ pAt, id })).toString('base64')` and its inverse
`JSON.parse(Buffer.from(cursor, 'base64').toString())`, built from explicit
UTF-8 / base64 / JSON stringify-parse models. -/

/-- The standard base64 alphabet. -/
def b64Alphabet : List Char :=
  "ABCDEFGHIJKLMNOPQRSTUVWXYZabcdefghijklmnopqrstuvwxyz0123456789+/".data

/-- Character for a 6-bit group. -/
def b64EncChar (n : Nat) : Char := b64Alphabet.getD n 'A'

/-- Index of a char in a list (offset accumulator). -/
def b64Index (c : Char) : List Char → Nat → Option Nat
  | [], _ => none
  | x :: rest, i => if x == c then some i else b64Index c rest (i + 1)

/-- 6-bit value of an alphabet char; `none` for padding and foreign chars
(Node's base64 decoder skips those). -/
def b64DecChar (c : Char) : Option Nat := b64Index c b64Alphabet 0

/-- Base64 encoding of a byte list (with padding, as
`Buffer.toString('base64')` emits). -/
def base64Encode : List Nat → List Char
  | [] => []
  | [a] => [b64EncChar (a / 4), b64EncChar (a % 4 * 16), '=', '=']
  | [a, b] => [b64EncChar (a / 4), b64EncChar (a % 4 * 16 + b / 16), b64EncChar (b % 16 * 4), '=']
  | a :: b :: c :: rest =>
    b64EncChar (a / 4) :: b64EncChar (a % 4 * 16 + b / 16) ::
      b64EncChar (b % 16 * 4 + c / 64) :: b64EncChar (c % 64) :: base64Encode rest

/-- Byte reassembly from 6-bit groups (lenient tail handling, like Node:
a dangling final group of 2 or 3 sextets yields 1 or 2 bytes, a single
sextet is dropped). -/
def b64DecodeCore : List Nat → List Nat
  | a :: b :: c :: d :: rest =>
    (a * 4 + b / 16) :: (b % 16 * 16 + c / 4) :: (c % 4 * 64 + d) :: b64DecodeCore rest
  | [a, b, c] => [a * 4 + b / 16, b % 16 * 16 + c / 4]
  | [a, b] => [a * 4 + b / 16]
  | _ => []

/-- Node-style lenient base64 decoding: non-alphabet characters (including
`=` padding) are skipped, then sextets are reassembled into bytes. -/
def base64Decode (l : List Char) : List Nat := b64DecodeCore (l.filterMap b64DecChar)

/-- UTF-8 encoding of one unicode scalar. -/
def utf8EncodeChar (c : Char) : List Nat :=
  let v := c.toNat
  if v < 128 then [v]
  else if v < 2048 then [192 + v / 64, 128 + v % 64]
  else if v < 65536 then [224 + v / 4096, 128 + v / 64 % 64, 128 + v % 64]
  else [240 + v / 262144, 128 + v / 4096 % 64, 128 + v / 64 % 64, 128 + v % 64]

/-- UTF-8 encoding of a char list. -/
def utf8EncodeList (l : List Char) : List Nat := (l.map utf8EncodeChar).flatten

/-- UTF-8 continuation byte test. -/
def isContByte (b : Nat) : Bool := 128 ≤ b && b < 192

/-- Decode one UTF-8 scalar from the front of a byte list; `none` on a
malformed sequence (Node's decoder substitutes U+FFFD instead, but a
malformed buffer never parses as a cursor either way). -/
def utf8DecodeOne : List Nat → Option (Char × List Nat)
  | [] => none
  | b0 :: rest =>
    if b0 < 128 then some (Char.ofNat b0, rest)
    else if b0 < 192 then none
    else if b0 < 224 then
      match rest with
      | b1 :: rest1 =>
        if isContByte b1 then some (Char.ofNat ((b0 - 192) * 64 + (b1 - 128)), rest1) else none
      | [] => none
    else if b0 < 240 then
      match rest with
      | b1 :: b2 :: rest2 =>
        if isContByte b1 && isContByte b2 then
          some (Char.ofNat ((b0 - 224) * 4096 + (b1 - 128) * 64 + (b2 - 128)), rest2)
        else none
      | _ => none
    else if b0 < 248 then
      match rest with
      | b1 :: b2 :: b3 :: rest3 =>
        if isContByte b1 && isContByte b2 && isContByte b3 then
          some (Char.ofNat ((b0 - 240) * 262144 + (b1 - 128) * 4096 + (b2 - 128) * 64 + (b3 - 128)),
            rest3)
        else none
      | _ => none
    else none

/-- Fuel-driven UTF-8 decoding loop (each step consumes at least one byte, so
a fuel of the byte count always suffices). -/
def utf8DecodeLoop : Nat → List Nat → Option (List Char)
  | _, [] => some []
  | 0, _ :: _ => none
  | fuel + 1, b :: bs =>
    match utf8DecodeOne (b :: bs) with
    | some (c, rest) =>
      match utf8DecodeLoop fuel rest with
      | some cs => some (c :: cs)
      | none => none
    | none => none

/-- UTF-8 decoding of a byte list. -/
def utf8Decode (l : List Nat) : Option (List Char) := utf8DecodeLoop l.length l

/-- Lowercase hex digit (as `JSON.stringify` emits in `\u00xx` escapes). -/
def hexDigitCh (n : Nat) : Char :=
  if n < 10 then Char.ofNat (48 + n) else Char.ofNat (87 + n)

/-- JSON string escaping of one character, per `JSON.stringify`. -/
def jsonEscapeChar (c : Char) : List Char :=
  if c = '"' then ['\\', '"']
  else if c = '\\' then ['\\', '\\']
  else if c = '\x08' then ['\\', 'b']
  else if c = '\x0c' then ['\\', 'f']
  else if c = '\n' then ['\\', 'n']
  else if c = '\r' then ['\\', 'r']
  else if c = '\t' then ['\\', 't']
  else if c.toNat < 32 then ['\\', 'u', '0', '0', hexDigitCh (c.toNat / 16), hexDigitCh (c.toNat % 16)]
  else [c]

/-- JSON string escaping of a char list. -/
def jsonEscapeList (l : List Char) : List Char := (l.map jsonEscapeChar).flatten

/-- Decimal digits of a natural number (fuel-based so that it reduces in the
kernel; the fuel `n + 1` always suffices). -/
def natDigitsAux : Nat → Nat → List Char
  | 0, _ => []
  | fuel + 1, n =>
    if n < 10 then [Char.ofNat (48 + n)]
    else natDigitsAux fuel (n / 10) ++ [Char.ofNat (48 + n % 10)]

/-- Decimal numeral of a natural number. -/
def natDigits (n : Nat) : List Char := natDigitsAux (n + 1) n

/-- Decimal numeral of an integer, as `JSON.stringify` prints an integral
number. -/
def intToChars (i : Int) : List Char :=
  if i < 0 then '-' :: natDigits i.natAbs else natDigits i.toNat

/-- The serialised text of `{ pAt: ..., id: ... }` up to the number. -/
def cursorPreChars : List Char := ['\x7b', '"', 'p', 'A', 't', '"', ':']

/-- The serialised text between the number and the id string literal. -/
def cursorMidChars : List Char := [',', '"', 'i', 'd', '"', ':', '"']

/-- `JSON.stringify({ pAt: publishedAt.getTime(), id })`. -/
def jsonStringifyCursor (pAt : Int) (eid : String) : List Char :=
  cursorPreChars ++ intToChars pAt ++ cursorMidChars ++ jsonEscapeList eid.data ++ ['"', '\x7d']

/-- Source `encodeCursor(publishedAt, id)` (the `Date` is its epoch-ms
value). -/
def encodeCursor (publishedAt : Int) (eid : String) : String :=
  ⟨base64Encode (utf8EncodeList (jsonStringifyCursor publishedAt eid))⟩

/-- Expect an exact char sequence and return the remainder. -/
def expectChars : List Char → List Char → Option (List Char)
  | [], l => some l
  | _ :: _, [] => none
  | p :: ps, c :: cs => if c == p then expectChars ps cs else none

/-- Hex digit value (JSON `\u` escapes accept both cases). -/
def hexVal (c : Char) : Option Nat :=
  if '0' ≤ c && c ≤ '9' then some (c.toNat - 48)
  else if 'a' ≤ c && c ≤ 'f' then some (c.toNat - 87)
  else if 'A' ≤ c && c ≤ 'F' then some (c.toNat - 55)
  else none

/-- JSON string-literal body parsing (after the opening quote): returns the
unescaped content and the remainder after the closing quote. -/
def parseJsonStr : List Char → Option (List Char × List Char)
  | [] => none
  | c :: rest =>
    if c = '"' then some ([], rest)
    else if c = '\\' then
      match rest with
      | [] => none
      | e :: rest1 =>
        if e = '"' then (parseJsonStr rest1).map (fun p => ('"' :: p.1, p.2))
        else if e = '\\' then (parseJsonStr rest1).map (fun p => ('\\' :: p.1, p.2))
        else if e = '/' then (parseJsonStr rest1).map (fun p => ('/' :: p.1, p.2))
        else if e = 'b' then (parseJsonStr rest1).map (fun p => ('\x08' :: p.1, p.2))
        else if e = 'f' then (parseJsonStr rest1).map (fun p => ('\x0c' :: p.1, p.2))
        else if e = 'n' then (parseJsonStr rest1).map (fun p => ('\n' :: p.1, p.2))
        else if e = 'r' then (parseJsonStr rest1).map (fun p => ('\r' :: p.1, p.2))
        else if e = 't' then (parseJsonStr rest1).map (fun p => ('\t' :: p.1, p.2))
        else if e = 'u' then
          match rest1 with
          | h1 :: h2 :: h3 :: h4 :: rest2 =>
            match hexVal h1, hexVal h2, hexVal h3, hexVal h4 with
            | some a, some b, some c2, some d =>
              (parseJsonStr rest2).map
                (fun p => (Char.ofNat (a * 4096 + b * 256 + c2 * 16 + d) :: p.1, p.2))
            | _, _, _, _ => none
          | _ => none
        else none
    else (parseJsonStr rest).map (fun p => (c :: p.1, p.2))

/-- The decoded cursor `{ pAt, id }`. -/
structure PageCursor where
  pAt : Int
  id : String
deriving DecidableEq

/-- Signed decimal integer parsing (at the front of a char list). -/
def parseSignDigits (l : List Char) : Option (Int × List Char) :=
  match l with
  | '-' :: t =>
    let p := spanDigits t
    if p.1.isEmpty then none else some (-(digitsToNat p.1 : Int), p.2)
  | _ =>
    let p := spanDigits l
    if p.1.isEmpty then none else some ((digitsToNat p.1 : Int), p.2)

/-- `JSON.parse` specialised to the exact shape `encodeCursor` serialises:
an object with a numeric `pAt` and a string `id`, in that order, and nothing
trailing. -/
def parseCursorChars (l : List Char) : Option PageCursor :=
  match expectChars cursorPreChars l with
  | none => none
  | some r1 =>
    match parseSignDigits r1 with
    | none => none
    | some (n, r2) =>
      match expectChars cursorMidChars r2 with
      | none => none
      | some r3 =>
        match parseJsonStr r3 with
        | none => none
        | some (idChars, r4) =>
          match r4 with
          | ['\x7d'] => some ⟨n, ⟨idChars⟩⟩
          | _ => none

/-- Source `decodeCursor`: base64-decode, UTF-8-decode, `JSON.parse`; any
failure is caught and becomes `null`. -/
def decodeCursor (cursor : String) : Option PageCursor :=
  match utf8Decode (base64Decode cursor.data) with
  | some chars => parseCursorChars chars
  | none => none

/-! ## The `UnlistenedEpisodes` pagination endpoint -/

/-- The episode columns the pagination logic depends on. -/
structure EpisodeRow where
  id : String
  podcastId : String
  publishedAt : Int
deriving DecidableEq

/-- Lexicographic text comparison by unicode scalar (the model of both the
SQL `<` on the id column and JS string comparison). -/
def listLtB : List Char → List Char → Bool
  | [], [] => false
  | [], _ :: _ => true
  | _ :: _, [] => false
  | a :: as, b :: bs =>
    if a.toNat < b.toNat then true else if b.toNat < a.toNat then false else listLtB as bs

/-- String version of `listLtB`. -/
def strLtB (a b : String) : Bool := listLtB a.data b.data

/-- The keyset filter added when a cursor decodes:
`publishedAt < cursorDate OR (publishedAt = cursorDate AND id < cursor.id)`. -/
def cursorKeep (c : PageCursor) (r : EpisodeRow) : Bool :=
  decide (r.publishedAt < c.pAt) || (r.publishedAt == c.pAt && strLtB r.id c.id)

/-- `ORDER BY publishedAt DESC, id DESC` as a pairwise priority. -/
def rowBefore (a b : EpisodeRow) : Bool :=
  if b.publishedAt < a.publishedAt then true
  else if a.publishedAt < b.publishedAt then false
  else !(strLtB a.id b.id)

/-- Ordered insertion (model of the SQL sort). -/
def insertRow (r : EpisodeRow) : List EpisodeRow → List EpisodeRow
  | [] => [r]
  | s :: rest => if rowBefore r s then r :: s :: rest else s :: insertRow r rest

/-- Sorting by `(publishedAt DESC, id DESC)`. -/
def orderRows : List EpisodeRow → List EpisodeRow
  | [] => []
  | r :: rest => insertRow r (orderRows rest)

/-- `Math.min(Math.max(first || 20, 1), 100)` — note `first || 20` makes a
`first` of `0` fall back to the default. -/
def pageSizeOf (first : Option Int) : Int :=
  min (max (match first with | none => 20 | some n => if n = 0 then 20 else n) 1) 100

/-- Inputs of one `UnlistenedEpisodes` call: the user's subscription set and
listened set (the two SQL subqueries), the optional podcast filter, and the
pagination arguments. -/
structure QueryParams where
  subscribedTo : String → Bool
  listened : String → Bool
  podcastId : Option String
  first : Option Int
  after : Option String

/-- The cursor clause: only applied when `after` is truthy and decodes. -/
def cursorFilterOf (after : Option String) : EpisodeRow → Bool :=
  match after with
  | some a =>
    if a != "" then
      match decodeCursor a with
      | some c => fun r => cursorKeep c r
      | none => fun _ => true
    else fun _ => true
  | none => fun _ => true

/-- The optional podcast clause (`if (podcastId)`, truthy check). -/
def podFilterOf (pid : Option String) : EpisodeRow → Bool :=
  match pid with
  | some p => if p != "" then fun r => r.podcastId == p else fun _ => true
  | none => fun _ => true

/-- Result shape of the endpoint. -/
structure PageResult where
  episodes : List EpisodeRow
  hasNextPage : Bool
  nextCursor : Option String
deriving DecidableEq

/-- The `UnlistenedEpisodes` handler after the permission gate, over an
in-memory model of the episode table: filter (subscription, unlistened,
cursor, podcast), order, `LIMIT pageSize + 1`, then the hasNextPage / slice /
nextCursor computation. -/
def runUnlistened (rows : List EpisodeRow) (p : QueryParams) : PageResult :=
  let pageSize := pageSizeOf p.first
  let limit := pageSize + 1
  let keep := fun r =>
    p.subscribedTo r.podcastId && !(p.listened r.id) &&
      cursorFilterOf p.after r && podFilterOf p.podcastId r
  let results := (orderRows (rows.filter keep)).take limit.toNat
  let hasNextPage := decide (pageSize.toNat < results.length)
  let episodes := if hasNextPage then results.take pageSize.toNat else results
  let nextCursor :=
    if hasNextPage then
      match episodes.getLast? with
      | some lastEp => some (encodeCursor lastEp.publishedAt lastEp.id)
      | none => none
    else none
  ⟨episodes, hasNextPage, nextCursor⟩

deriving instance DecidableEq for Except

/-- Array test (`Array.isArray`). -/
def jsIsArr : JSVal → Bool
  | .arr _ => true
  | _ => false

/-- Modelled from the claim's wording (C4): the URL of the first candidate in
the array whose extractable URL is truthy string text containing explicit MP3
evidence (`.mp3` / `audio/mpeg` / `audio/mp3` after lowercasing). -/
def specFirstMp3Url : List JSVal → Option String
  | [] => none
  | e :: rest =>
    match getUrlFromEnclosure e with
    | some (.str s) => if s != "" && isMp3Url s then some s else specFirstMp3Url rest
    | _ => specFirstMp3Url rest

/-- Domain guard for C4: a candidate's extracted url value is a string, or
falsy, or absent — the shapes `rss-parser` produces from XML, where attribute
values are always strings.  (A truthy non-string url value, reachable only
through hand-crafted JSON, would raise a TypeError inside the scan.) -/
def urlStrOrFalsy (e : JSVal) : Bool :=
  match getUrlFromEnclosure e with
  | some (.str _) => true
  | some u => !jsTruthy u
  | none => true

/-! ## Concrete fixtures used by witnesses -/

/-- A response body passing the feed sanity checks. -/
def feedBodyOk : String := "<rss><channel></channel></rss>"

/-- A well-formed feed item with an MP3 enclosure. -/
def itemFix1 : JSVal :=
  .obj [("title", .str "Ep1"), ("link", .str "https://pod.example/e1"),
        ("contentSnippet", .str "desc"),
        ("enclosure", .obj [("url", .str "https://pod.example/e1.mp3")])]

/-- The episode `itemFix1` normalizes to (under `envFix1`). -/
def epFix1 : EpisodeInsert :=
  ⟨"", "Ep1", some "desc", "https://pod.example/e1", some "https://pod.example/e1.mp3", 0, none⟩

/-- Ingestion environment: everything succeeds, the feed has one item. -/
def envFix1 : IngestEnv :=
  ⟨fun _ => true, fun _ => none, 0,
   .response true 200 "OK" "application/rss+xml" feedBodyOk,
   .ok (.obj [("items", .arr [itemFix1])])⟩

/-- Ingestion environment: everything succeeds, the feed has zero items. -/
def envFix2 : IngestEnv :=
  ⟨fun _ => true, fun _ => none, 0,
   .response true 200 "OK" "application/rss+xml" feedBodyOk,
   .ok (.obj [("items", .arr [])])⟩

/-- An item that passes the Zod schema through the `z.any()` enclosure
fallback but whose enclosure carries a numeric `url` value, so the URL
heuristics raise a TypeError. -/
def itemFixBad : JSVal :=
  .obj [("title", .str "Crash"), ("link", .str "https://pod.example/e2"),
        ("content", .str "x"), ("enclosure", .obj [("url", .num 42)])]

/-! # Theorems -/

/-! ## Basic string lemmas -/

theorem isPreB_append {p l : List Char} (r : List Char) (h : isPreB p l = true) :
    isPreB p (l ++ r) = true := by
  induction p generalizing l with
  | nil => rfl
  | cons a as ih =>
    cases l with
    | nil => simp [isPreB] at h
    | cons b bs =>
      simp only [isPreB, Bool.and_eq_true] at h ⊢
      exact ⟨h.1, ih h.2⟩

theorem listHasSub_of_pre {p l : List Char} (h : isPreB p l = true) :
    listHasSub p l = true := by
  cases l with
  | nil =>
    cases p with
    | nil => rfl
    | cons a as => simp [isPreB] at h
  | cons b bs => simp [listHasSub, h]

theorem strIncludes_pre (a b pat : String) (h : isPreB pat.data a.data = true) :
    strIncludes (a ++ b) pat = true := by
  unfold strIncludes
  rw [String.data_append]
  exact listHasSub_of_pre (isPreB_append _ h)

theorem caught_noAudioUrl (t : String) : caughtByLoop (.noAudioUrl t) = true := by
  have h : strIncludes (errMessage (.noAudioUrl t)) "No audio URL found" = true := by
    show strIncludes ("No audio URL found for episode \"" ++ t ++ "\" - skipping invalid episode") _ = true
    apply strIncludes_pre
    rw [String.data_append]
    exact isPreB_append _ (by decide)
  simp [caughtByLoop, h]

theorem caught_invalidAudioUrl (t u : String) : caughtByLoop (.invalidAudioUrl t u) = true := by
  have h : strIncludes (errMessage (.invalidAudioUrl t u)) "Invalid audio URL" = true := by
    show strIncludes ("Invalid audio URL for episode \"" ++ t ++ "\": " ++ u) _ = true
    apply strIncludes_pre
    rw [String.data_append]
    exact isPreB_append _ (isPreB_append _ (by decide))
  simp [caughtByLoop, h]

/-! ## Loop lemmas -/

theorem fetchLoop_skip (step : JSVal → Except ProcError EpisodeInsert) (i : JSVal)
    (rest : List JSVal) (e : ProcError) (h1 : step i = .error e) (h2 : caughtByLoop e = true) :
    fetchLoop step (i :: rest) = fetchLoop step rest := by
  simp [fetchLoop, h1, h2]

theorem fetchLoop_abort (step : JSVal → Except ProcError EpisodeInsert) :
    ∀ (pre : List JSVal) (i : JSVal) (post : List JSVal) (e : ProcError),
      (∀ j ∈ pre, (∃ ep, step j = .ok ep) ∨ ∃ e2, step j = .error e2 ∧ caughtByLoop e2 = true) →
      step i = .error e → caughtByLoop e = false →
      fetchLoop step (pre ++ i :: post) = .error e := by
  intro pre
  induction pre with
  | nil =>
    intro i post e _ h1 h2
    simp [fetchLoop, h1, h2]
  | cons j pre ih =>
    intro i post e hpre h1 h2
    have hrec := ih i post e (fun k hk => hpre k (by simp [hk])) h1 h2
    rcases hpre j (by simp) with ⟨ep, hep⟩ | ⟨e2, he2, hc⟩
    · simp [fetchLoop, hep, hrec]
    · simp [fetchLoop, he2, hc, hrec]

theorem fetchLoop_ok_mem (step : JSVal → Except ProcError EpisodeInsert) :
    ∀ (items : List JSVal) (eps : List EpisodeInsert), fetchLoop step items = .ok eps →
      ∀ e ∈ eps, ∃ i ∈ items, step i = .ok e := by
  intro items
  induction items with
  | nil =>
    intro eps h e he
    simp [fetchLoop] at h
    subst h
    simp at he
  | cons i rest ih =>
    intro eps h e he
    rw [fetchLoop] at h
    cases hs : step i with
    | ok ep =>
      rw [hs] at h
      cases hr : fetchLoop step rest with
      | ok eps2 =>
        rw [hr] at h
        cases h
        rcases List.mem_cons.mp he with rfl | hmem
        · exact ⟨i, by simp, hs⟩
        · obtain ⟨i2, hi2, hsi2⟩ := ih eps2 hr e hmem
          exact ⟨i2, by simp [hi2], hsi2⟩
      | error e2 => rw [hr] at h; cases h
    | error e2 =>
      rw [hs] at h
      dsimp only at h
      by_cases hc : caughtByLoop e2 = true
      · rw [if_pos hc] at h
        obtain ⟨i2, hi2, hsi2⟩ := ih eps h e he
        exact ⟨i2, by simp [hi2], hsi2⟩
      · rw [if_neg hc] at h
        cases h

/-! ## Extraction lemmas -/

theorem mp3Pass_cases (e : JSVal) (rest : List JSVal) :
    mp3Pass (e :: rest) = .error typeErrMsg ∨ mp3Pass (e :: rest) = mp3Pass rest ∨
      ∃ s, mp3Pass (e :: rest) = .ok (some s) := by
  rw [mp3Pass]
  rcases getUrlFromEnclosure e with _ | u
  · right; left; rfl
  · dsimp only
    by_cases ht : jsTruthy u = true
    · rw [if_pos ht]
      cases u with
      | str s =>
        dsimp only
        by_cases hm : isMp3Url s = true
        · rw [if_pos hm]; right; right; exact ⟨s, rfl⟩
        · rw [if_neg hm]; right; left; rfl
      | undefined => left; rfl
      | null => left; rfl
      | bool b => left; rfl
      | num n => left; rfl
      | arr xs => left; rfl
      | obj fs => left; rfl
    · rw [if_neg ht]; right; left; rfl

theorem mp3Pass_error_msg : ∀ (xs : List JSVal) (m : String), mp3Pass xs = .error m → m = typeErrMsg := by
  intro xs
  induction xs with
  | nil => intro m h; simp [mp3Pass] at h
  | cons e rest ih =>
    intro m h
    rcases mp3Pass_cases e rest with h1 | h1 | ⟨s, h1⟩
    · rw [h1] at h; exact (Except.error.inj h).symm
    · rw [h1] at h; exact ih m h
    · rw [h1] at h; cases h

theorem audioPass_cases (e : JSVal) (rest : List JSVal) :
    audioPass (e :: rest) = .error typeErrMsg ∨ audioPass (e :: rest) = audioPass rest ∨
      ∃ s, audioPass (e :: rest) = .ok (some s) := by
  rw [audioPass]
  rcases getUrlFromEnclosure e with _ | u
  · right; left; rfl
  · dsimp only
    by_cases ht : jsTruthy u = true
    · rw [if_pos ht]
      cases u with
      | str s =>
        dsimp only
        by_cases hm : (isAudioUrl s || isAudioType e) = true
        · rw [if_pos hm]; right; right; exact ⟨s, rfl⟩
        · rw [if_neg hm]; right; left; rfl
      | undefined => left; rfl
      | null => left; rfl
      | bool b => left; rfl
      | num n => left; rfl
      | arr xs => left; rfl
      | obj fs => left; rfl
    · rw [if_neg ht]; right; left; rfl

theorem audioPass_error_msg : ∀ (xs : List JSVal) (m : String), audioPass xs = .error m → m = typeErrMsg := by
  intro xs
  induction xs with
  | nil => intro m h; simp [audioPass] at h
  | cons e rest ih =>
    intro m h
    rcases audioPass_cases e rest with h1 | h1 | ⟨s, h1⟩
    · rw [h1] at h; exact (Except.error.inj h).symm
    · rw [h1] at h; exact ih m h
    · rw [h1] at h; cases h

theorem extractFromEnclosure_nonarr (v : JSVal) (hv : jsIsArr v = false) :
    extractFromEnclosure v =
      (match getUrlFromEnclosure v with
       | none => .ok none
       | some u =>
         if jsTruthy u then
           match u with
           | .str s => if isMp3Url s || isAudioUrl s then .ok (some s) else .ok none
           | _ => .error typeErrMsg
         else .ok none) := by
  cases v with
  | arr xs => simp [jsIsArr] at hv
  | undefined =>
    rw [extractFromEnclosure]
    exact fun xs hxx => by cases hxx
  | null =>
    rw [extractFromEnclosure]
    exact fun xs hxx => by cases hxx
  | bool b =>
    rw [extractFromEnclosure]
    exact fun xs hxx => by cases hxx
  | num n =>
    rw [extractFromEnclosure]
    exact fun xs hxx => by cases hxx
  | str s =>
    rw [extractFromEnclosure]
    exact fun xs hxx => by cases hxx
  | obj fs =>
    rw [extractFromEnclosure]
    exact fun xs hxx => by cases hxx

theorem extractFromEnclosure_error_msg (v : JSVal) (m : String)
    (h : extractFromEnclosure v = .error m) : m = typeErrMsg := by
  by_cases hv : jsIsArr v = true
  · obtain ⟨xs, rfl⟩ : ∃ xs, v = .arr xs := by
      cases v with
      | arr xs => exact ⟨xs, rfl⟩
      | undefined => simp [jsIsArr] at hv
      | null => simp [jsIsArr] at hv
      | bool b => simp [jsIsArr] at hv
      | num n => simp [jsIsArr] at hv
      | str s => simp [jsIsArr] at hv
      | obj fs => simp [jsIsArr] at hv
    rw [extractFromEnclosure] at h
    cases hm : mp3Pass xs with
    | error e2 =>
      rw [hm] at h
      dsimp only at h
      injection h with h2
      subst h2
      exact mp3Pass_error_msg xs _ hm
    | ok r =>
      rw [hm] at h
      cases r with
      | some u => dsimp only at h; cases h
      | none => dsimp only at h; exact audioPass_error_msg xs m h
  · rw [extractFromEnclosure_nonarr v (by simpa using hv)] at h
    rcases hg : getUrlFromEnclosure v with _ | u <;> rw [hg] at h <;> dsimp only at h
    · cases h
    · by_cases ht : jsTruthy u = true
      · rw [if_pos ht] at h
        cases u with
        | str s =>
          dsimp only at h
          by_cases hm : (isMp3Url s || isAudioUrl s) = true
          · rw [if_pos hm] at h; cases h
          · rw [if_neg hm] at h; cases h
        | undefined => exact (Except.error.inj h).symm
        | null => exact (Except.error.inj h).symm
        | bool b => exact (Except.error.inj h).symm
        | num n => exact (Except.error.inj h).symm
        | arr xs => exact (Except.error.inj h).symm
        | obj fs => exact (Except.error.inj h).symm
      · rw [if_neg ht] at h; cases h

theorem guardedExtract_error (v : JSVal) (e2 : String)
    (h : (if jsTruthy v = true then extractFromEnclosure v else Except.ok none) = .error e2) :
    e2 = typeErrMsg := by
  by_cases ht : jsTruthy v = true
  · rw [if_pos ht] at h; exact extractFromEnclosure_error_msg v e2 h
  · rw [if_neg ht] at h; cases h

theorem extractAudioUrlFromItem_error_msg (item : JSVal) (m : String)
    (h : extractAudioUrlFromItem item = .error m) : m = typeErrMsg := by
  rw [extractAudioUrlFromItem] at h
  split at h
  case _ e2 heq =>
    injection h with h2
    subst h2
    exact guardedExtract_error _ _ heq
  case _ u heq => cases h
  case _ heq =>
    dsimp only at h
    split at h
    case _ e2 heq2 =>
      injection h with h2
      subst h2
      exact guardedExtract_error _ _ heq2
    case _ u heq2 => cases h
    case _ heq2 =>
      split at h
      · split at h
        case _ e3 heq3 =>
          injection h with h2
          subst h2
          exact guardedExtract_error _ _ heq3
        case _ r heq3 => cases h
      · cases h

theorem processValidatedItem_ok_inv (ivu : String → Bool) (pd : String → Option Int) (now : Int)
    (v : ValidatedRSSItem) (ep : EpisodeInsert)
    (h : processValidatedItem ivu pd now v = .ok ep) :
    ∃ u, ep.audioUrl = some u ∧ u ≠ "" ∧ ivu u = true := by
  rw [processValidatedItem] at h
  split at h
  case _ msg heq => cases h
  case _ au heq =>
    split at h
    case _ => cases h
    case _ u =>
      by_cases hu : u = ""
      · rw [if_pos hu] at h; cases h
      · rw [if_neg hu] at h
        by_cases hv : ivu u = true
        · rw [if_pos hv, if_neg hu] at h
          injection h with h2
          exact ⟨u, by rw [← h2], hu, hv⟩
        · rw [if_neg hv] at h; cases h

theorem processValidatedItem_not_extractFailed (ivu : String → Bool) (pd : String → Option Int)
    (now : Int) (v : ValidatedRSSItem) (t : String) :
    processValidatedItem ivu pd now v ≠ .error (.extractFailed t) := by
  intro h
  rw [processValidatedItem] at h
  split at h
  case _ msg heq => cases h
  case _ au heq =>
    split at h
    case _ => cases h
    case _ u =>
      by_cases hu : u = ""
      · rw [if_pos hu] at h; cases h
      · rw [if_neg hu] at h
        by_cases hv : ivu u = true
        · rw [if_pos hv, if_neg hu] at h; cases h
        · rw [if_neg hv] at h; cases h

theorem processValidatedItem_other_msg (ivu : String → Bool) (pd : String → Option Int)
    (now : Int) (v : ValidatedRSSItem) (m : String)
    (h : processValidatedItem ivu pd now v = .error (.other m)) : m = typeErrMsg := by
  rw [processValidatedItem] at h
  split at h
  case _ msg heq =>
    injection h with h2
    injection h2 with h3
    subst h3
    exact extractAudioUrlFromItem_error_msg _ _ heq
  case _ au heq =>
    split at h
    case _ => cases h
    case _ u =>
      by_cases hu : u = ""
      · rw [if_pos hu] at h; cases h
      · rw [if_neg hu] at h
        by_cases hv : ivu u = true
        · rw [if_pos hv, if_neg hu] at h; cases h
        · rw [if_neg hv] at h; cases h

theorem processItem_ok_inv (ivu : String → Bool) (pd : String → Option Int) (now : Int)
    (item : JSVal) (ep : EpisodeInsert) (h : processItem ivu pd now item = .ok ep) :
    ∃ u, ep.audioUrl = some u ∧ u ≠ "" ∧ ivu u = true := by
  rw [processItem] at h
  cases hz : zodParseItem ivu item with
  | none => rw [hz] at h; cases h
  | some v => rw [hz] at h; exact processValidatedItem_ok_inv ivu pd now v ep h

theorem processItem_not_extractFailed (ivu : String → Bool) (pd : String → Option Int)
    (now : Int) (item : JSVal) (t : String) :
    processItem ivu pd now item ≠ .error (.extractFailed t) := by
  intro h
  rw [processItem] at h
  cases hz : zodParseItem ivu item with
  | none => rw [hz] at h; cases h
  | some v => rw [hz] at h; exact processValidatedItem_not_extractFailed ivu pd now v t h

theorem processItem_other_msg (ivu : String → Bool) (pd : String → Option Int)
    (now : Int) (item : JSVal) (m : String)
    (h : processItem ivu pd now item = .error (.other m)) : m = typeErrMsg := by
  rw [processItem] at h
  cases hz : zodParseItem ivu item with
  | none => rw [hz] at h; cases h
  | some v => rw [hz] at h; exact processValidatedItem_other_msg ivu pd now v m h

theorem fetchEpisodesModel_ok_inv (env : IngestEnv) (url : String) (eps : List EpisodeInsert)
    (h : fetchEpisodesModel env url = .ok eps) :
    ∃ rawFeed, env.parseOutcome = .ok rawFeed ∧
      fetchLoop (processItem env.isValidURL env.parseDate env.now) (feedItemsOf rawFeed) = .ok eps := by
  rw [fetchEpisodesModel] at h
  by_cases hu : url = ""
  · rw [if_pos hu] at h; cases h
  · rw [if_neg hu] at h
    cases hval : validateRSSFeedModel url env.fetchOutcome with
    | error m => rw [hval] at h; cases h
    | ok u2 =>
      rw [hval] at h
      dsimp only at h
      cases hp : env.parseOutcome with
      | error m => rw [hp] at h; cases h
      | ok raw =>
        rw [hp] at h
        dsimp only at h
        cases hl : fetchLoop (processItem env.isValidURL env.parseDate env.now) (feedItemsOf raw) with
        | error e => rw [hl] at h; cases h
        | ok eps2 =>
          rw [hl] at h
          injection h with h2
          subst h2
          exact ⟨raw, rfl, hl⟩

theorem filterNewEpisodes_mem (ex : EpisodeInsert → Bool) :
    ∀ (eps : List EpisodeInsert) (e : EpisodeInsert), e ∈ filterNewEpisodes ex eps →
      jsTruthyOptStr e.audioUrl = true := by
  intro eps
  induction eps with
  | nil => intro e he; simp [filterNewEpisodes] at he
  | cons a rest ih =>
    intro e he
    rw [filterNewEpisodes] at he
    by_cases hex : ex a = true
    · rw [if_pos hex] at he; exact ih e he
    · rw [if_neg hex] at he
      by_cases ht : jsTruthyOptStr a.audioUrl = true
      · rw [ht] at he
        simp only [Bool.not_true, Bool.false_eq_true, if_false] at he
        rcases List.mem_cons.mp he with rfl | hmem
        · exact ht
        · exact ih e hmem
      · have ht2 : jsTruthyOptStr a.audioUrl = false := by
          cases hq : jsTruthyOptStr a.audioUrl
          · rfl
          · exact absurd hq ht
        rw [ht2] at he
        simp only [Bool.not_false, if_true] at he
        exact ih e he

theorem filterNewEpisodes_guard (ex : EpisodeInsert → Bool) (eps : List EpisodeInsert) :
    insertGuard (filterNewEpisodes ex eps) = .ok () := by
  rw [insertGuard]
  have hfil : (filterNewEpisodes ex eps).filter (fun ep => !(jsTruthyOptStr ep.audioUrl)) = [] := by
    rw [List.filter_eq_nil_iff]
    intro a ha
    rw [filterNewEpisodes_mem ex eps a ha]
    simp
  rw [hfil]
  simp

/-- C1: every `EpisodeInsert` returned by `fetchEpisodes` carries a non-null,
non-empty `audioUrl` accepted by the `new URL` syntactic validity check — an
item yielding no such URL is skipped, never returned with a null or
placeholder value — and the `CreatePodcast` persistence filter refuses any
episode whose `audioUrl` is null (falsy), so the defensive pre-insert guard
never fires on the episodes it slates for insertion. -/
theorem C1_audio_url_invariant :
    (∀ (env : IngestEnv) (url : String) (eps : List EpisodeInsert),
        fetchEpisodesModel env url = .ok eps →
        ∀ e ∈ eps, ∃ u, e.audioUrl = some u ∧ u ≠ "" ∧ env.isValidURL u = true) ∧
    (∀ (ex : EpisodeInsert → Bool) (eps : List EpisodeInsert),
        (∀ e ∈ filterNewEpisodes ex eps, e.audioUrl ≠ none) ∧
        insertGuard (filterNewEpisodes ex eps) = .ok ()) := by
  constructor
  · intro env url eps h e he
    obtain ⟨raw, _, hl⟩ := fetchEpisodesModel_ok_inv env url eps h
    obtain ⟨i, _, hi⟩ := fetchLoop_ok_mem _ _ _ hl e he
    exact processItem_ok_inv _ _ _ _ _ hi
  · intro ex eps
    refine ⟨fun e he => ?_, filterNewEpisodes_guard ex eps⟩
    have ht := filterNewEpisodes_mem ex eps e he
    intro hnone
    rw [hnone] at ht
    cases ht

/-- C1 witness: a concrete one-item feed produces exactly one episode whose
`audioUrl` is a non-null valid URL, and the persistence filter keeps it while
the insert guard passes. -/
theorem C1_audio_url_invariant_witness :
    fetchEpisodesModel envFix1 "https://pod.example/feed" = .ok [epFix1] ∧
    (∃ u, epFix1.audioUrl = some u ∧ u ≠ "" ∧ envFix1.isValidURL u = true) ∧
    insertGuard (filterNewEpisodes (fun _ => false) [epFix1]) = .ok () :=
  ⟨by decide,
   C1_audio_url_invariant.1 envFix1 "https://pod.example/feed" [epFix1] (by decide) epFix1 (by simp),
   (C1_audio_url_invariant.2 (fun _ => false) [epFix1]).2⟩

/-- C2 counterexample: a feed that passes pre-validation and parses with an
empty `items` array makes `fetchEpisodes` return an empty episode batch — it
does not abort with a feed-level error, contradicting the claimed
`FeedStructureInvalid` behaviour. -/
theorem C2_zero_items_counterexample :
    feedItemsOf (.obj [("items", .arr [])]) = [] ∧
    fetchEpisodesModel envFix2 "https://pod.example/feed" = .ok [] := by
  constructor
  · rfl
  · decide

/-- C2 (amended): when the parsed feed's `items` array is empty (or absent),
`fetchEpisodes` is lenient at the feed level and returns an empty batch
(`.ok []`) rather than failing; the only ≥1-item requirement lives in the
metadata schema used by `fetchFeedMetadata`, where a validation failure
degrades to returning raw data. -/
theorem C2_zero_items_amended (env : IngestEnv) (url : String) (rawFeed : JSVal)
    (h0 : url ≠ "") (h1 : validateRSSFeedModel url env.fetchOutcome = .ok ())
    (h2 : env.parseOutcome = .ok rawFeed) (h3 : feedItemsOf rawFeed = []) :
    fetchEpisodesModel env url = .ok [] := by
  rw [fetchEpisodesModel, if_neg h0, h1]
  dsimp only
  rw [h2]
  dsimp only
  rw [h3]
  rfl

/-- C2 amended witness: the concrete empty feed environment. -/
theorem C2_zero_items_amended_witness :
    fetchEpisodesModel envFix2 "https://pod.example/feed" = .ok [] :=
  C2_zero_items_amended envFix2 "https://pod.example/feed" (.obj [("items", .arr [])])
    (by decide) (by decide) rfl rfl

/-- C3: the per-item loop of `fetchEpisodes` silently skips exactly the three
recoverable per-item failures — Zod validation error, missing audio URL,
invalid audio URL (their messages match the loop's catch patterns) — while
every other error a step can produce (only the extractor's TypeError; the
dead "Failed to extract" safety throw is unreachable) is not caught: it
propagates, aborts the batch, and the episodes accumulated before the fatal
item are discarded. -/
theorem C3_loop_error_policy :
    (caughtByLoop .zodError = true) ∧
    (∀ t, caughtByLoop (.noAudioUrl t) = true) ∧
    (∀ t u, caughtByLoop (.invalidAudioUrl t u) = true) ∧
    (caughtByLoop (.other typeErrMsg) = false) ∧
    (∀ (ivu : String → Bool) (pd : String → Option Int) (now : Int) (item : JSVal) (t : String),
        processItem ivu pd now item ≠ .error (.extractFailed t)) ∧
    (∀ (ivu : String → Bool) (pd : String → Option Int) (now : Int) (item : JSVal) (m : String),
        processItem ivu pd now item = .error (.other m) → m = typeErrMsg) ∧
    (∀ (step : JSVal → Except ProcError EpisodeInsert) (i : JSVal) (rest : List JSVal) (e : ProcError),
        step i = .error e → caughtByLoop e = true →
        fetchLoop step (i :: rest) = fetchLoop step rest) ∧
    (∀ (step : JSVal → Except ProcError EpisodeInsert) (pre : List JSVal) (i : JSVal)
        (post : List JSVal) (e : ProcError),
        (∀ j ∈ pre, (∃ ep, step j = .ok ep) ∨ ∃ e2, step j = .error e2 ∧ caughtByLoop e2 = true) →
        step i = .error e → caughtByLoop e = false →
        fetchLoop step (pre ++ i :: post) = .error e) :=
  ⟨rfl, caught_noAudioUrl, caught_invalidAudioUrl, by decide,
   processItem_not_extractFailed, processItem_other_msg, fetchLoop_skip,
   fun step pre i post e h1 h2 h3 => fetchLoop_abort step pre i post e h1 h2 h3⟩

/-- C3 witness: a concrete batch where the first item processes successfully
and the second raises the extractor's TypeError: the whole batch aborts with
that error and the first episode is not returned. -/
theorem C3_loop_error_policy_witness :
    processItem (fun _ => true) (fun _ => none) 0 itemFixBad = .error (.other typeErrMsg) ∧
    fetchLoop (processItem (fun _ => true) (fun _ => none) 0) [itemFix1, itemFixBad] =
      .error (.other typeErrMsg) := by
  refine ⟨by decide, ?_⟩
  have h := C3_loop_error_policy.2.2.2.2.2.2.2 (processItem (fun _ => true) (fun _ => none) 0)
    [itemFix1] itemFixBad [] (.other typeErrMsg) ?_ (by decide) (by decide)
  · exact h
  · intro j hj
    rcases List.mem_singleton.mp hj with rfl
    exact Or.inl ⟨epFix1, by decide⟩

theorem strStarts_ne_empty (url pat : String) (hp : pat ≠ "")
    (h : strStarts url pat = true) : url ≠ "" := by
  intro he
  subst he
  rw [strStarts] at h
  cases hd : pat.data with
  | nil => exact hp (by cases pat with | mk l => cases hd; rfl)
  | cons c cs => rw [hd] at h; cases h

/-- C8: the feed pre-validator rejects an empty URL, a URL without an
`http://`/`https://` scheme, and a URL longer than 2000 characters, each with
its fatal error message; the result for such inputs is the same whatever the
fetch outcome is — the error is raised before any network request. -/
theorem C8_feed_url_prechecks (url : String) (o : FetchOutcome) :
    (url = "" → validateRSSFeedModel url o = .error "RSS feed URL is required") ∧
    (url ≠ "" → strStarts url "http://" = false → strStarts url "https://" = false →
      validateRSSFeedModel url o =
        .error "Please enter a valid URL starting with http:// or https://") ∧
    ((strStarts url "http://" = true ∨ strStarts url "https://" = true) →
      2000 < url.length → validateRSSFeedModel url o = .error "URL is too long") := by
  refine ⟨?_, ?_, ?_⟩
  · intro h
    subst h
    rfl
  · intro h0 h1 h2
    rw [validateRSSFeedModel.eq_def, if_neg h0, if_pos (by simp [h1, h2])]
  · intro hs hlen
    have h0 : url ≠ "" := by
      rcases hs with h | h
      · exact strStarts_ne_empty url "http://" (by decide) h
      · exact strStarts_ne_empty url "https://" (by decide) h
    have hsch : (!strStarts url "http://" && !strStarts url "https://") = false := by
      rcases hs with h | h <;> simp [h]
    rw [validateRSSFeedModel.eq_def, if_neg h0, hsch]
    simp only [Bool.false_eq_true, if_false]
    rw [if_pos hlen]

/-- C8 witness: a schemeless URL is rejected with the scheme error for two
different fetch outcomes (no network request is consulted). -/
theorem C8_feed_url_prechecks_witness :
    validateRSSFeedModel "example.com/feed.xml" .networkError =
      .error "Please enter a valid URL starting with http:// or https://" ∧
    validateRSSFeedModel "example.com/feed.xml" (.response true 200 "OK" "" "<rss><channel></channel></rss>") =
      .error "Please enter a valid URL starting with http:// or https://" :=
  ⟨(C8_feed_url_prechecks "example.com/feed.xml" .networkError).2.1 (by decide) (by decide) (by decide),
   (C8_feed_url_prechecks "example.com/feed.xml" _).2.1 (by decide) (by decide) (by decide)⟩

/-- C9 counterexample: `first = 0` is below 1, yet the effective page size is
the default 20, not the claimed clamp value 1 (`first || 20` treats the falsy
`0` as absent). -/
theorem C9_page_size_counterexample :
    pageSizeOf (some 0) = 20 ∧ ¬pageSizeOf (some 0) = 1 := by decide

/-- C9 (amended): the effective page size is 20 when `first` is absent or 0
(zero is falsy in `first || 20`), 1 when `first` is nonzero and below 1, 100
when `first` exceeds 100, and `first` itself otherwise; it always lies in
[1, 100], and a page never returns more episodes than it. -/
theorem C9_page_size_amended :
    pageSizeOf none = 20 ∧ pageSizeOf (some 0) = 20 ∧
    (∀ n : Int, n < 1 → n ≠ 0 → pageSizeOf (some n) = 1) ∧
    (∀ n : Int, 100 < n → pageSizeOf (some n) = 100) ∧
    (∀ n : Int, 1 ≤ n → n ≤ 100 → pageSizeOf (some n) = n) ∧
    (∀ first, 1 ≤ pageSizeOf first ∧ pageSizeOf first ≤ 100) ∧
    (∀ (rows : List EpisodeRow) (p : QueryParams),
        (runUnlistened rows p).episodes.length ≤ (pageSizeOf p.first).toNat) := by
  refine ⟨by decide, by decide, ?_, ?_, ?_, ?_, ?_⟩
  · intro n h1 h2
    simp only [pageSizeOf, if_neg h2]
    omega
  · intro n h1
    have h2 : n ≠ 0 := by omega
    simp only [pageSizeOf, if_neg h2]
    omega
  · intro n h1 h2
    have h3 : n ≠ 0 := by omega
    simp only [pageSizeOf, if_neg h3]
    omega
  · intro first
    cases first with
    | none => simp only [pageSizeOf]; omega
    | some n =>
      by_cases h : n = 0
      · subst h; simp only [pageSizeOf, if_pos rfl]; omega
      · simp only [pageSizeOf, if_neg h]; omega
  · intro rows p
    rw [runUnlistened]
    dsimp only
    split
    · rw [List.length_take]
      omega
    case _ hc =>
      rw [List.length_take] at hc ⊢
      simp only [decide_eq_true_eq, Nat.not_lt] at hc
      omega

/-- C9 amended witness: concrete instantiations of the clamp cases and the
page-length bound. -/
theorem C9_page_size_amended_witness :
    pageSizeOf (some (-7)) = 1 ∧ pageSizeOf (some 250) = 100 ∧ pageSizeOf (some 33) = 33 ∧
    (runUnlistened [] ⟨fun _ => true, fun _ => false, none, some 3, none⟩).episodes.length ≤
      (pageSizeOf (some 3)).toNat :=
  ⟨C9_page_size_amended.2.2.1 (-7) (by decide) (by decide),
   C9_page_size_amended.2.2.2.1 250 (by decide),
   C9_page_size_amended.2.2.2.2.1 33 (by decide) (by decide),
   C9_page_size_amended.2.2.2.2.2.2 [] ⟨fun _ => true, fun _ => false, none, some 3, none⟩⟩

/-- C10: when the `after` cursor does not decode (`decodeCursor` returns
null), the endpoint applies no cursor clause at all and computes exactly the
same page as if `after` had been omitted; decoding is total, so a malformed
cursor never raises an error. -/
theorem C10_bad_cursor_first_page (rows : List EpisodeRow) (subTo lis : String → Bool)
    (pid : Option String) (first : Option Int) (a : String) (h : decodeCursor a = none) :
    runUnlistened rows ⟨subTo, lis, pid, first, some a⟩ =
      runUnlistened rows ⟨subTo, lis, pid, first, none⟩ := by
  have hc : cursorFilterOf (some a) = cursorFilterOf none := by
    by_cases ha : a = ""
    · subst ha; simp [cursorFilterOf]
    · simp [cursorFilterOf, ha, h]
  simp only [runUnlistened, hc]

/-- C10 witness: a string that is not base64-encoded JSON decodes to null and
yields the plain first page. -/
theorem C10_bad_cursor_first_page_witness :
    decodeCursor "!!!" = none ∧
    runUnlistened [⟨"e1", "p1", 10⟩] ⟨fun _ => true, fun _ => false, none, none, some "!!!"⟩ =
      runUnlistened [⟨"e1", "p1", 10⟩] ⟨fun _ => true, fun _ => false, none, none, none⟩ :=
  ⟨by decide,
   C10_bad_cursor_first_page [⟨"e1", "p1", 10⟩] (fun _ => true) (fun _ => false) none none "!!!"
     (by decide)⟩

theorem mp3Pass_eq_spec : ∀ (xs : List JSVal), (∀ e ∈ xs, urlStrOrFalsy e = true) →
    mp3Pass xs = .ok (specFirstMp3Url xs) := by
  intro xs
  induction xs with
  | nil => intro _; rfl
  | cons e rest ih =>
    intro h
    have hd := h e (by simp)
    have hrec := ih (fun j hj => h j (by simp [hj]))
    rw [mp3Pass, specFirstMp3Url]
    cases hg : getUrlFromEnclosure e with
    | none => exact hrec
    | some u =>
      rw [urlStrOrFalsy] at hd
      rw [hg] at hd
      dsimp only
      cases u with
      | str s =>
        by_cases hs : s = ""
        · subst hs
          rw [if_neg (by decide)]
          simp only [jsTruthy]
          rw [if_neg (by decide)]
          exact hrec
        · have ht : jsTruthy (JSVal.str s) = true := by simp [jsTruthy, hs]
          rw [if_pos ht]
          dsimp only
          by_cases hm : isMp3Url s = true
          · rw [if_pos hm, if_pos (by simp [hs, hm])]
          · rw [if_neg hm, if_neg (by simp [hm])]
            exact hrec
      | undefined => rw [if_neg (by simpa using hd)]; exact hrec
      | null => rw [if_neg (by simpa using hd)]; exact hrec
      | bool b => rw [if_neg (by simpa using hd)]; exact hrec
      | num n => rw [if_neg (by simpa using hd)]; exact hrec
      | arr ys => rw [if_neg (by simpa using hd)]; exact hrec
      | obj fs => rw [if_neg (by simpa using hd)]; exact hrec

/-- C4: over enclosure arrays whose candidates carry string (or falsy/absent)
url values — the shapes XML attribute parsing yields — the scan returns the
URL of the first candidate with explicit MP3 evidence, regardless of where
the non-MP3 candidates sit; in particular, an `.html`/`.mp3` enclosure pair
resolves to the `.mp3` URL in both array orders. -/
theorem C4_first_mp3_priority :
    (∀ (xs : List JSVal) (u : String), (∀ e ∈ xs, urlStrOrFalsy e = true) →
        specFirstMp3Url xs = some u → extractFromEnclosure (.arr xs) = .ok (some u)) ∧
    extractFromEnclosure (.arr [.obj [("url", .str "https://x/page.html")],
        .obj [("url", .str "https://x/ep.mp3")]]) = .ok (some "https://x/ep.mp3") ∧
    extractFromEnclosure (.arr [.obj [("url", .str "https://x/ep.mp3")],
        .obj [("url", .str "https://x/page.html")]]) = .ok (some "https://x/ep.mp3") := by
  refine ⟨?_, by decide, by decide⟩
  intro xs u hdom hspec
  rw [extractFromEnclosure, mp3Pass_eq_spec xs hdom, hspec]

/-- C4 witness: a three-candidate array with a leading non-MP3 candidate
resolves to the first MP3 URL. -/
theorem C4_first_mp3_priority_witness :
    specFirstMp3Url [.obj [("url", .str "https://x/a.html")], .obj [("url", .str "https://x/b.mp3")],
        .obj [("url", .str "https://x/c.mp3")]] = some "https://x/b.mp3" ∧
    extractFromEnclosure (.arr [.obj [("url", .str "https://x/a.html")],
        .obj [("url", .str "https://x/b.mp3")], .obj [("url", .str "https://x/c.mp3")]]) =
      .ok (some "https://x/b.mp3") :=
  ⟨by decide,
   C4_first_mp3_priority.1 [.obj [("url", .str "https://x/a.html")],
     .obj [("url", .str "https://x/b.mp3")], .obj [("url", .str "https://x/c.mp3")]]
     "https://x/b.mp3" (by decide) (by decide)⟩

/-- C5: a single (non-array) candidate's URL is accepted exactly when it is a
truthy string passing `isMp3Url` or `isAudioUrl`; the `isAudioType` attribute
check is not consulted for a lone candidate, so an enclosure whose `type`
attribute says audio but whose URL text carries no audio indicator is
rejected alone, yet accepted inside a one-element array. -/
theorem C5_single_enclosure_asymmetry :
    (∀ (enc : JSVal) (u : String), jsIsArr enc = false →
        (extractFromEnclosure enc = .ok (some u) ↔
          getUrlFromEnclosure enc = some (.str u) ∧ u ≠ "" ∧
            (isMp3Url u || isAudioUrl u) = true)) ∧
    isAudioType (.obj [("url", .str "https://x/file"), ("type", .str "audio/mpeg")]) = true ∧
    extractFromEnclosure (.obj [("url", .str "https://x/file"), ("type", .str "audio/mpeg")]) =
      .ok none ∧
    extractFromEnclosure (.arr [.obj [("url", .str "https://x/file"), ("type", .str "audio/mpeg")]]) =
      .ok (some "https://x/file") := by
  refine ⟨?_, by decide, by decide, by decide⟩
  intro enc u hv
  rw [extractFromEnclosure_nonarr enc hv]
  cases hg : getUrlFromEnclosure enc with
  | none => simp
  | some u2 =>
    dsimp only
    by_cases ht : jsTruthy u2 = true
    · rw [if_pos ht]
      cases u2 with
      | str s =>
        dsimp only
        by_cases hm : (isMp3Url s || isAudioUrl s) = true
        · rw [if_pos hm]
          constructor
          · intro h
            injection h with h2
            injection h2 with h3
            subst h3
            exact ⟨rfl, by simpa [jsTruthy] using ht, hm⟩
          · rintro ⟨h1, _, _⟩
            injection h1 with h2
            injection h2 with h3
            rw [h3]
        · rw [if_neg hm]
          constructor
          · intro h; cases h  -- hmm ok none = ok (some u)
          · rintro ⟨h1, _, h3⟩
            injection h1 with h2
            injection h2 with h4
            subst h4
            exact absurd h3 hm
      | undefined => simp
      | null => simp
      | bool b => simp
      | num n => simp
      | arr ys => simp
      | obj fs => simp
    · rw [if_neg ht]
      constructor
      · intro h; cases h
      · rintro ⟨h1, h2, _⟩
        injection h1 with h3
        subst h3
        exact absurd (by simp [jsTruthy, h2]) ht

/-- C5 witness: a lone `.m4a` enclosure is accepted through the iff (its URL
text passes the broader audio check). -/
theorem C5_single_enclosure_asymmetry_witness :
    extractFromEnclosure (.obj [("url", .str "https://x/a.m4a")]) = .ok (some "https://x/a.m4a") :=
  (C5_single_enclosure_asymmetry.1 (.obj [("url", .str "https://x/a.m4a")])
    "https://x/a.m4a" (by decide)).mpr ⟨rfl, by decide, by decide⟩

/-- C6 counterexample: the non-colon string `"12abc"` is of "any other shape"
(neither `H:MM:SS`, `M:SS`, nor a pure numeral), yet `parseInt(s, 10)` reads
its leading digits, so `durationSeconds` becomes 12, not null. -/
theorem C6_duration_counterexample :
    computeDurationSeconds (.str "12abc") .undefined = some (.int 12) ∧
    ¬computeDurationSeconds (.str "12abc") .undefined = none := by decide

/-- C6 (amended): `"01:02:03"` yields 3723 s, `"02:03"` yields 123 s,
`"2730"` yields 2730 s, and a nonzero numeric value is used directly (numeric
0 is falsy and yields null); a non-colon string yields the integer that
`parseInt(s, 10)` reads from its leading digits and null when there is none
(so `"garbage"` yields null but `"12abc"` yields 12); a colon string with a
non-numeral component yields NaN rather than null; an unparseable duration
never fails the item. -/
theorem C6_duration_amended :
    computeDurationSeconds (.str "01:02:03") .undefined = some (.int 3723) ∧
    computeDurationSeconds (.str "02:03") .undefined = some (.int 123) ∧
    computeDurationSeconds (.str "2730") .undefined = some (.int 2730) ∧
    computeDurationSeconds (.str "garbage") .undefined = none ∧
    (∀ n : Int, n ≠ 0 → computeDurationSeconds (.num n) .undefined = some (.int n)) ∧
    computeDurationSeconds (.num 0) .undefined = none ∧
    (∀ s : String, s ≠ "" → strIncludes s ":" = false →
        computeDurationSeconds (.str s) .undefined = (jsParseIntBase10 s).map JSNumV.int) ∧
    computeDurationSeconds (.str "a:b") .undefined = some .nan ∧
    processItem (fun _ => true) (fun _ => none) 0
        (.obj [("title", .str "G"), ("link", .str "https://x/g"),
               ("contentSnippet", .str "d"), ("duration", .str "garbage"),
               ("enclosure", .obj [("url", .str "https://x/g.mp3")])]) =
      .ok ⟨"", "G", some "d", "https://x/g", some "https://x/g.mp3", 0, none⟩ := by
  refine ⟨by decide, by decide, by decide, by decide, ?_, by decide, ?_, by decide, by decide⟩
  · intro n hn
    have ht : jsTruthy (JSVal.num n) = true := by simp [jsTruthy]; exact hn
    rw [computeDurationSeconds, if_pos (by rw [ht]; rfl)]
    rw [jsOrVal, if_pos ht]
  · intro s h1 h2
    have ht : jsTruthy (JSVal.str s) = true := by simp [jsTruthy, h1]
    rw [computeDurationSeconds, if_pos (by rw [ht]; rfl), jsOrVal, if_pos ht]
    dsimp only
    rw [if_neg (by rw [h2]; exact Bool.false_ne_true)]
    cases jsParseIntBase10 s <;> rfl

/-- C6 amended witness: a direct numeric duration of 90 is used as seconds,
and `"45:10"` runs through the two-component branch via the general lemma. -/
theorem C6_duration_amended_witness :
    computeDurationSeconds (.num 90) .undefined = some (.int 90) ∧
    computeDurationSeconds (.str "90") .undefined = (jsParseIntBase10 "90").map JSNumV.int :=
  ⟨C6_duration_amended.2.2.2.2.1 90 (by decide),
   C6_duration_amended.2.2.2.2.2.2.1 "90" (by decide) (by decide)⟩

/-! ## Cursor codec round-trip lemmas -/

theorem b64DecChar_encChar (k : Nat) (h : k < 64) : b64DecChar (b64EncChar k) = some k := by
  have h2 : ∀ k : Fin 64, b64DecChar (b64EncChar k.val) = some k.val := by decide
  exact h2 ⟨k, h⟩

theorem b64DecChar_pad : b64DecChar '=' = none := by decide

theorem base64_roundtrip_aux : ∀ (n : Nat) (bytes : List Nat), bytes.length ≤ n →
    (∀ b ∈ bytes, b < 256) → base64Decode (base64Encode bytes) = bytes := by
  intro n
  induction n with
  | zero =>
    intro bytes hlen hb
    have h0 : bytes = [] := List.eq_nil_of_length_eq_zero (Nat.le_zero.mp hlen)
    subst h0
    rfl
  | succ n ih =>
    intro bytes hlen hb
    match bytes with
    | [] => rfl
    | [a] =>
      have ha : a < 256 := hb a (by simp)
      show base64Decode [b64EncChar (a / 4), b64EncChar (a % 4 * 16), '=', '='] = [a]
      rw [base64Decode,
        List.filterMap_cons_some (b64DecChar_encChar _ (by omega)),
        List.filterMap_cons_some (b64DecChar_encChar _ (by omega)),
        List.filterMap_cons_none b64DecChar_pad,
        List.filterMap_cons_none b64DecChar_pad,
        List.filterMap_nil, b64DecodeCore]
      simp only [List.cons.injEq, and_true]
      omega
    | [a, b] =>
      have ha : a < 256 := hb a (by simp)
      have hb2 : b < 256 := hb b (by simp)
      show base64Decode [b64EncChar (a / 4), b64EncChar (a % 4 * 16 + b / 16),
        b64EncChar (b % 16 * 4), '='] = [a, b]
      rw [base64Decode,
        List.filterMap_cons_some (b64DecChar_encChar _ (by omega)),
        List.filterMap_cons_some (b64DecChar_encChar _ (by omega)),
        List.filterMap_cons_some (b64DecChar_encChar _ (by omega)),
        List.filterMap_cons_none b64DecChar_pad,
        List.filterMap_nil, b64DecodeCore]
      simp only [List.cons.injEq, and_true]
      constructor
      · omega
      · omega
    | a :: b :: c :: rest =>
      have ha : a < 256 := hb a (by simp)
      have hb2 : b < 256 := hb b (by simp)
      have hc : c < 256 := hb c (by simp)
      have hrec : base64Decode (base64Encode rest) = rest := by
        refine ih rest ?_ (fun x hx => hb x (by simp [hx]))
        simp only [List.length_cons] at hlen
        omega
      rw [base64Encode, base64Decode,
        List.filterMap_cons_some (b64DecChar_encChar _ (by omega)),
        List.filterMap_cons_some (b64DecChar_encChar _ (by omega)),
        List.filterMap_cons_some (b64DecChar_encChar _ (by omega)),
        List.filterMap_cons_some (b64DecChar_encChar _ (by omega)),
        b64DecodeCore]
      rw [base64Decode] at hrec
      rw [hrec]
      simp only [List.cons.injEq]
      exact ⟨by omega, by omega, by omega, trivial⟩

theorem base64_roundtrip (bytes : List Nat) (hb : ∀ b ∈ bytes, b < 256) :
    base64Decode (base64Encode bytes) = bytes :=
  base64_roundtrip_aux bytes.length bytes (Nat.le_refl _) hb

theorem char_valid_nat (c : Char) : c.toNat < 55296 ∨ (57343 < c.toNat ∧ c.toNat < 1114112) :=
  c.valid

theorem char_toNat_lt (c : Char) : c.toNat < 1114112 := by
  rcases char_valid_nat c with h | ⟨h1, h2⟩ <;> omega

theorem utf8EncodeChar_ne_nil (c : Char) : utf8EncodeChar c ≠ [] := by
  rw [utf8EncodeChar]
  by_cases h1 : c.toNat < 128
  · rw [if_pos h1]; simp
  · by_cases h2 : c.toNat < 2048
    · rw [if_neg h1, if_pos h2]; simp
    · by_cases h3 : c.toNat < 65536
      · rw [if_neg h1, if_neg h2, if_pos h3]; simp
      · rw [if_neg h1, if_neg h2, if_neg h3]; simp

theorem utf8DecodeOne_encodeChar (c : Char) (rest : List Nat) :
    utf8DecodeOne (utf8EncodeChar c ++ rest) = some (c, rest) := by
  have hlt : c.toNat < 1114112 := char_toNat_lt c
  rw [utf8EncodeChar]
  by_cases h1 : c.toNat < 128
  · rw [if_pos h1]
    show utf8DecodeOne (c.toNat :: rest) = _
    rw [utf8DecodeOne.eq_def]
    dsimp only
    rw [if_pos h1, Char.ofNat_toNat]
  · by_cases h2 : c.toNat < 2048
    · rw [if_neg h1, if_pos h2]
      show utf8DecodeOne ((192 + c.toNat / 64) :: (128 + c.toNat % 64) :: rest) = _
      rw [utf8DecodeOne.eq_def]
      dsimp only
      rw [if_neg (by omega), if_neg (by omega), if_pos (by omega),
        if_pos (by simp only [isContByte, Bool.and_eq_true, decide_eq_true_eq]; omega)]
      have hv : (192 + c.toNat / 64 - 192) * 64 + (128 + c.toNat % 64 - 128) = c.toNat := by omega
      rw [hv, Char.ofNat_toNat]
    · by_cases h3 : c.toNat < 65536
      · rw [if_neg h1, if_neg h2, if_pos h3]
        show utf8DecodeOne ((224 + c.toNat / 4096) :: (128 + c.toNat / 64 % 64) ::
          (128 + c.toNat % 64) :: rest) = _
        rw [utf8DecodeOne.eq_def]
        dsimp only
        rw [if_neg (by omega), if_neg (by omega), if_neg (by omega), if_pos (by omega),
          if_pos (by simp only [isContByte, Bool.and_eq_true, decide_eq_true_eq]; omega)]
        have hv : (224 + c.toNat / 4096 - 224) * 4096 + (128 + c.toNat / 64 % 64 - 128) * 64 +
            (128 + c.toNat % 64 - 128) = c.toNat := by omega
        rw [hv, Char.ofNat_toNat]
      · rw [if_neg h1, if_neg h2, if_neg h3]
        show utf8DecodeOne ((240 + c.toNat / 262144) :: (128 + c.toNat / 4096 % 64) ::
          (128 + c.toNat / 64 % 64) :: (128 + c.toNat % 64) :: rest) = _
        rw [utf8DecodeOne.eq_def]
        dsimp only
        rw [if_neg (by omega), if_neg (by omega), if_neg (by omega), if_neg (by omega),
          if_pos (by omega),
          if_pos (by simp only [isContByte, Bool.and_eq_true, decide_eq_true_eq]; omega)]
        have hv : (240 + c.toNat / 262144 - 240) * 262144 +
            (128 + c.toNat / 4096 % 64 - 128) * 4096 +
            (128 + c.toNat / 64 % 64 - 128) * 64 + (128 + c.toNat % 64 - 128) = c.toNat := by omega
        rw [hv, Char.ofNat_toNat]

theorem utf8DecodeLoop_encodeList : ∀ (l : List Char) (fuel : Nat),
    (utf8EncodeList l).length ≤ fuel → utf8DecodeLoop fuel (utf8EncodeList l) = some l := by
  intro l
  induction l with
  | nil => intro fuel _; cases fuel <;> rfl
  | cons c cs ih =>
    intro fuel hfuel
    have hshape : ∃ b bs, utf8EncodeChar c = b :: bs := by
      cases he : utf8EncodeChar c with
      | nil => exact absurd he (utf8EncodeChar_ne_nil c)
      | cons b bs => exact ⟨b, bs, rfl⟩
    obtain ⟨b, bs, hbs⟩ := hshape
    have henc : utf8EncodeList (c :: cs) = utf8EncodeChar c ++ utf8EncodeList cs := by
      rw [utf8EncodeList, List.map_cons, List.flatten_cons]
      rfl
    rw [henc] at hfuel ⊢
    cases fuel with
    | zero =>
      rw [List.length_append, hbs] at hfuel
      simp at hfuel
    | succ fuel =>
      rw [hbs, List.cons_append, utf8DecodeLoop, ← List.cons_append, ← hbs,
        utf8DecodeOne_encodeChar]
      have hlen : (utf8EncodeList cs).length ≤ fuel := by
        rw [List.length_append, hbs] at hfuel
        simp at hfuel
        omega
      dsimp only
      rw [ih fuel hlen]

theorem utf8_roundtrip (l : List Char) : utf8Decode (utf8EncodeList l) = some l := by
  rw [utf8Decode]
  exact utf8DecodeLoop_encodeList l _ (Nat.le_refl _)

theorem utf8EncodeChar_lt (c : Char) : ∀ b ∈ utf8EncodeChar c, b < 256 := by
  intro b hb
  have hlt : c.toNat < 1114112 := char_toNat_lt c
  rw [utf8EncodeChar] at hb
  by_cases h1 : c.toNat < 128
  · rw [if_pos h1] at hb
    simp at hb
    omega
  · by_cases h2 : c.toNat < 2048
    · rw [if_neg h1, if_pos h2] at hb
      simp at hb
      rcases hb with rfl | rfl <;> omega
    · by_cases h3 : c.toNat < 65536
      · rw [if_neg h1, if_neg h2, if_pos h3] at hb
        simp at hb
        rcases hb with rfl | rfl | rfl <;> omega
      · rw [if_neg h1, if_neg h2, if_neg h3] at hb
        simp at hb
        rcases hb with rfl | rfl | rfl | rfl <;> omega

theorem utf8EncodeList_lt (l : List Char) : ∀ b ∈ utf8EncodeList l, b < 256 := by
  intro b hb
  rw [utf8EncodeList, List.mem_flatten] at hb
  obtain ⟨bs, hbs, hbmem⟩ := hb
  rw [List.mem_map] at hbs
  obtain ⟨c, _, rfl⟩ := hbs
  exact utf8EncodeChar_lt c b hbmem

theorem char_toNat_ofNat_valid (n : Nat) (h : n.isValidChar) : (Char.ofNat n).toNat = n := by
  simp [Char.ofNat, h, Char.ofNatAux, Char.toNat]
  rfl

theorem digit_valid (n : Nat) (h : n < 10) : (48 + n).isValidChar := by
  left
  omega

theorem natDigitsAux_spec : ∀ (fuel n : Nat), n < fuel →
    natDigitsAux fuel n ≠ [] ∧ (∀ c ∈ natDigitsAux fuel n, isDigitCh c = true) ∧
      digitsToNat (natDigitsAux fuel n) = n := by
  intro fuel
  induction fuel with
  | zero => intro n h; omega
  | succ fuel ih =>
    intro n h
    rw [natDigitsAux]
    by_cases h10 : n < 10
    · rw [if_pos h10]
      have hval := char_toNat_ofNat_valid (48 + n) (digit_valid n h10)
      refine ⟨by simp, ?_, ?_⟩
      · intro c hc
        rw [List.mem_singleton] at hc
        subst hc
        rw [isDigitCh, hval]
        simp only [Bool.and_eq_true, decide_eq_true_eq]
        omega
      · rw [digitsToNat, List.foldl_cons, List.foldl_nil, hval]
        omega
    · rw [if_neg h10]
      have hrec := ih (n / 10) (by omega)
      have hval := char_toNat_ofNat_valid (48 + n % 10) (digit_valid (n % 10) (by omega))
      refine ⟨by simp [hrec.1], ?_, ?_⟩
      · intro c hc
        rw [List.mem_append] at hc
        rcases hc with hc | hc
        · exact hrec.2.1 c hc
        · rw [List.mem_singleton] at hc
          subst hc
          rw [isDigitCh, hval]
          simp only [Bool.and_eq_true, decide_eq_true_eq]
          omega
      · rw [digitsToNat, List.foldl_append, List.foldl_cons, List.foldl_nil]
        rw [show List.foldl (fun a c => a * 10 + (c.toNat - 48)) 0 (natDigitsAux fuel (n / 10)) =
          digitsToNat (natDigitsAux fuel (n / 10)) from rfl, hrec.2.2, hval]
        omega

theorem natDigits_spec (n : Nat) :
    natDigits n ≠ [] ∧ (∀ c ∈ natDigits n, isDigitCh c = true) ∧ digitsToNat (natDigits n) = n :=
  natDigitsAux_spec (n + 1) n (by omega)

theorem spanDigits_exact : ∀ (xs ys : List Char), (∀ c ∈ xs, isDigitCh c = true) →
    (match ys with | [] => True | y :: _ => isDigitCh y = false) →
    spanDigits (xs ++ ys) = (xs, ys) := by
  intro xs
  induction xs with
  | nil =>
    intro ys _ hy
    cases ys with
    | nil => rfl
    | cons y t =>
      rw [List.nil_append, spanDigits]
      dsimp only at hy
      rw [hy]
      simp
  | cons x xs ih =>
    intro ys hx hy
    rw [List.cons_append, spanDigits, hx x (by simp)]
    rw [ih ys (fun c hc => hx c (by simp [hc])) hy]
    simp

theorem parseSignDigits_intToChars (i : Int) (rest : List Char)
    (hrest : match rest with | [] => True | y :: _ => isDigitCh y = false) :
    parseSignDigits (intToChars i ++ rest) = some (i, rest) := by
  rw [intToChars]
  by_cases hi : i < 0
  · obtain ⟨hne, hdig, hval⟩ := natDigits_spec i.natAbs
    rw [if_pos hi, List.cons_append, parseSignDigits.eq_def]
    split
    case _ t heq =>
      injection heq with _ h2
      subst h2
      rw [spanDigits_exact (natDigits i.natAbs) rest hdig hrest]
      dsimp only
      have hemp : (natDigits i.natAbs).isEmpty = false := by
        cases hq : natDigits i.natAbs with
        | nil => exact absurd hq hne
        | cons d ds => rfl
      rw [hemp]
      simp only [Bool.false_eq_true, if_false]
      rw [hval]
      have hcast : -((i.natAbs : Nat) : Int) = i := by omega
      rw [hcast]
    case _ hcontra =>
      exact absurd ((hcontra (natDigits i.natAbs ++ rest)) rfl) (fun hq => hq)
  · obtain ⟨hne, hdig, hval⟩ := natDigits_spec i.toNat
    obtain ⟨d, ds, hshape⟩ : ∃ d ds, natDigits i.toNat = d :: ds := by
      cases hq : natDigits i.toNat with
      | nil => exact absurd hq hne
      | cons d ds => exact ⟨d, ds, rfl⟩
    have hd : isDigitCh d = true := hdig d (by rw [hshape]; simp)
    have hdne : d ≠ '-' := by
      intro hcontra
      have hxx : isDigitCh '-' = false := by decide
      rw [hcontra, hxx] at hd
      cases hd
    rw [if_neg hi, hshape, List.cons_append, parseSignDigits.eq_def]
    split
    case _ t heq =>
      injection heq with h1 _
      exact absurd h1 hdne
    case _ =>
      dsimp only
      rw [← List.cons_append, ← hshape, spanDigits_exact _ rest hdig hrest]
      dsimp only
      have hemp : (natDigits i.toNat).isEmpty = false := by
        cases hq : natDigits i.toNat with
        | nil => exact absurd hq hne
        | cons d2 ds2 => rfl
      rw [hemp]
      simp only [Bool.false_eq_true, if_false]
      rw [hval]
      have hcast : ((i.toNat : Nat) : Int) = i := by omega
      rw [hcast]

theorem hexVal_hexDigitCh (k : Nat) (h : k < 16) : hexVal (hexDigitCh k) = some k := by
  have h2 : ∀ k : Fin 16, hexVal (hexDigitCh k.val) = some k.val := by decide
  exact h2 ⟨k, h⟩

theorem expectChars_exact : ∀ (p l : List Char), expectChars p (p ++ l) = some l := by
  intro p
  induction p with
  | nil => intro l; rfl
  | cons c cs ih =>
    intro l
    rw [List.cons_append, expectChars]
    simp only [beq_self_eq_true, if_true]
    exact ih l

theorem parseJsonStr_cons_raw (c : Char) (h1 : ¬c = '"') (h2 : ¬c = '\\') (l : List Char) :
    parseJsonStr (c :: l) = (parseJsonStr l).map (fun p => (c :: p.1, p.2)) := by
  rw [parseJsonStr.eq_def]
  dsimp only
  rw [if_neg h1, if_neg h2]

theorem parseJsonStr_escape : ∀ (cs rest : List Char),
    parseJsonStr (jsonEscapeList cs ++ '"' :: rest) = some (cs, rest) := by
  intro cs
  induction cs with
  | nil =>
    intro rest
    show parseJsonStr ('"' :: rest) = _
    rw [parseJsonStr.eq_def]
    dsimp only
    rw [if_pos rfl]
  | cons c cs ih =>
    intro rest
    rw [jsonEscapeList, List.map_cons, List.flatten_cons, List.append_assoc,
      show (cs.map jsonEscapeChar).flatten = jsonEscapeList cs from rfl]
    rw [jsonEscapeChar]
    by_cases h1 : c = '"'
    · rw [if_pos h1]
      show parseJsonStr ('\\' :: '"' :: (jsonEscapeList cs ++ '"' :: rest)) = _
      rw [parseJsonStr.eq_def]
      dsimp only
      simp only [reduceIte]
      rw [ih rest]
      rw [h1]
      rfl
    · rw [if_neg h1]
      by_cases h2 : c = '\\'
      · rw [if_pos h2]
        show parseJsonStr ('\\' :: '\\' :: (jsonEscapeList cs ++ '"' :: rest)) = _
        rw [parseJsonStr.eq_def]
        dsimp only
        simp only [reduceIte]
        rw [ih rest]
        rw [h2]
        rfl
      · rw [if_neg h2]
        by_cases h3 : c = '\x08'
        · rw [if_pos h3]
          show parseJsonStr ('\\' :: 'b' :: (jsonEscapeList cs ++ '"' :: rest)) = _
          rw [parseJsonStr.eq_def]
          dsimp only
          simp only [reduceIte]
          rw [ih rest]
          rw [h3]
          rfl
        · rw [if_neg h3]
          by_cases h4 : c = '\x0c'
          · rw [if_pos h4]
            show parseJsonStr ('\\' :: 'f' :: (jsonEscapeList cs ++ '"' :: rest)) = _
            rw [parseJsonStr.eq_def]
            dsimp only
            simp only [reduceIte]
            rw [ih rest]
            rw [h4]
            rfl
          · rw [if_neg h4]
            by_cases h5 : c = '\n'
            · rw [if_pos h5]
              show parseJsonStr ('\\' :: 'n' :: (jsonEscapeList cs ++ '"' :: rest)) = _
              rw [parseJsonStr.eq_def]
              dsimp only
              simp only [reduceIte]
              rw [ih rest]
              rw [h5]
              rfl
            · rw [if_neg h5]
              by_cases h6 : c = '\r'
              · rw [if_pos h6]
                show parseJsonStr ('\\' :: 'r' :: (jsonEscapeList cs ++ '"' :: rest)) = _
                rw [parseJsonStr.eq_def]
                dsimp only
                simp only [reduceIte]
                rw [ih rest]
                rw [h6]
                rfl
              · rw [if_neg h6]
                by_cases h7 : c = '\t'
                · rw [if_pos h7]
                  show parseJsonStr ('\\' :: 't' :: (jsonEscapeList cs ++ '"' :: rest)) = _
                  rw [parseJsonStr.eq_def]
                  dsimp only
                  simp only [reduceIte]
                  rw [ih rest]
                  rw [h7]
                  rfl
                · rw [if_neg h7]
                  by_cases h8 : c.toNat < 32
                  · rw [if_pos h8]
                    show parseJsonStr ('\\' :: 'u' :: '0' :: '0' ::
                      hexDigitCh (c.toNat / 16) :: hexDigitCh (c.toNat % 16) ::
                      (jsonEscapeList cs ++ '"' :: rest)) = _
                    rw [parseJsonStr.eq_def]
                    dsimp only
                    simp only [reduceIte]
                    rw [show hexVal '0' = some 0 from by decide,
                      hexVal_hexDigitCh (c.toNat / 16) (by omega),
                      hexVal_hexDigitCh (c.toNat % 16) (by omega)]
                    dsimp only
                    rw [ih rest]
                    have hv : 0 * 4096 + 0 * 256 + c.toNat / 16 * 16 + c.toNat % 16 = c.toNat := by
                      omega
                    rw [hv, Char.ofNat_toNat]
                    rfl
                  · rw [if_neg h8]
                    show parseJsonStr (c :: (jsonEscapeList cs ++ '"' :: rest)) = _
                    rw [parseJsonStr_cons_raw c h1 h2, ih rest]
                    rfl

theorem parseCursorChars_stringify (pAt : Int) (eid : String) :
    parseCursorChars (jsonStringifyCursor pAt eid) = some ⟨pAt, eid⟩ := by
  rw [jsonStringifyCursor, parseCursorChars]
  simp only [List.append_assoc]
  rw [expectChars_exact]
  dsimp only
  rw [parseSignDigits_intToChars pAt _ (by show isDigitCh ',' = false; decide)]
  dsimp only
  rw [expectChars_exact]
  dsimp only
  rw [show jsonEscapeList eid.data ++ ['"', '\x7d'] = jsonEscapeList eid.data ++ '"' :: ['\x7d'] from rfl]
  rw [parseJsonStr_escape]
  rfl

theorem decodeCursor_encodeCursor (publishedAt : Int) (eid : String) :
    decodeCursor (encodeCursor publishedAt eid) = some ⟨publishedAt, eid⟩ := by
  rw [encodeCursor, decodeCursor]
  rw [show (String.mk (base64Encode (utf8EncodeList (jsonStringifyCursor publishedAt eid)))).data =
    base64Encode (utf8EncodeList (jsonStringifyCursor publishedAt eid)) from rfl]
  rw [base64_roundtrip _ (utf8EncodeList_lt _), utf8_roundtrip]
  exact parseCursorChars_stringify publishedAt eid

theorem mem_insertRow (r a : EpisodeRow) : ∀ (l : List EpisodeRow),
    a ∈ insertRow r l → a = r ∨ a ∈ l := by
  intro l
  induction l with
  | nil =>
    intro h
    rw [insertRow] at h
    rcases List.mem_singleton.mp h with rfl
    exact Or.inl rfl
  | cons s rest ih =>
    intro h
    rw [insertRow] at h
    by_cases hb : rowBefore r s = true
    · rw [if_pos hb] at h
      rcases List.mem_cons.mp h with rfl | h2
      · exact Or.inl rfl
      · exact Or.inr h2
    · rw [if_neg hb] at h
      rcases List.mem_cons.mp h with rfl | h2
      · exact Or.inr (by simp)
      · rcases ih h2 with rfl | h3
        · exact Or.inl rfl
        · exact Or.inr (by simp [h3])

theorem mem_orderRows (a : EpisodeRow) : ∀ (l : List EpisodeRow), a ∈ orderRows l → a ∈ l := by
  intro l
  induction l with
  | nil => intro h; exact h
  | cons r rest ih =>
    intro h
    rw [orderRows] at h
    rcases mem_insertRow r a (orderRows rest) h with rfl | h2
    · simp
    · simp [ih h2]

theorem runUnlistened_mem_keep (rows : List EpisodeRow) (p : QueryParams) (e : EpisodeRow)
    (he : e ∈ (runUnlistened rows p).episodes) : cursorFilterOf p.after e = true := by
  dsimp only [runUnlistened] at he
  have h1 : e ∈ (orderRows (rows.filter (fun r =>
      p.subscribedTo r.podcastId && !(p.listened r.id) &&
        cursorFilterOf p.after r && podFilterOf p.podcastId r))).take
          ((pageSizeOf p.first) + 1).toNat := by
    split at he
    · exact List.take_subset _ _ he
    · exact he
  have h2 := List.take_subset _ _ h1
  have h3 := mem_orderRows e _ h2
  have h4 := List.mem_filter.mp h3
  have h5 := h4.2
  simp only [Bool.and_eq_true] at h5
  exact h5.1.2

theorem base64Encode_ne_nil (b : Nat) (rest : List Nat) : base64Encode (b :: rest) ≠ [] := by
  match rest with
  | [] => simp [base64Encode]
  | [x] => simp [base64Encode]
  | x :: y :: r => simp [base64Encode]

theorem encodeCursor_ne_empty (p : Int) (e : String) : encodeCursor p e ≠ "" := by
  rw [encodeCursor]
  intro h
  have hl : base64Encode (utf8EncodeList (jsonStringifyCursor p e)) = [] := congrArg String.data h
  obtain ⟨t, ht⟩ : ∃ t, jsonStringifyCursor p e = '\x7b' :: t := ⟨_, rfl⟩
  rw [ht, utf8EncodeList, List.map_cons, List.flatten_cons,
    show utf8EncodeChar '\x7b' = [123] from by decide, List.cons_append] at hl
  exact base64Encode_ne_nil _ _ hl

/-- C7: encoding a `(publishedAt, id)` pair as a cursor and decoding it back
yields the original pair (epoch milliseconds and id unchanged); the keyset
clause rejects exactly the rows whose `(publishedAt, id)` pair is
later-or-equal in the `(publishedAt DESC, id DESC)` order; and a page queried
with the cursor of a row `r0` only ever contains rows strictly after `r0` in
that order — in particular never `r0`'s own position again. -/
theorem C7_cursor_roundtrip_keyset :
    (∀ (publishedAt : Int) (eid : String),
        decodeCursor (encodeCursor publishedAt eid) = some ⟨publishedAt, eid⟩) ∧
    (∀ (c : PageCursor) (r : EpisodeRow),
        cursorKeep c r = false ↔
          (c.pAt < r.publishedAt ∨ (r.publishedAt = c.pAt ∧ strLtB r.id c.id = false))) ∧
    (∀ (rows : List EpisodeRow) (subTo lis : String → Bool) (pid : Option String)
        (first : Option Int) (r0 e : EpisodeRow),
        e ∈ (runUnlistened rows ⟨subTo, lis, pid, first,
            some (encodeCursor r0.publishedAt r0.id)⟩).episodes →
        (e.publishedAt < r0.publishedAt ∨
          (e.publishedAt = r0.publishedAt ∧ strLtB e.id r0.id = true))) := by
  refine ⟨decodeCursor_encodeCursor, ?_, ?_⟩
  · intro c r
    rw [cursorKeep]
    cases hb : strLtB r.id c.id
    · by_cases heq : r.publishedAt = c.pAt
      · simp [heq, hb]
      · by_cases hlt : r.publishedAt < c.pAt
        · simp [hlt, heq, hb]
          omega
        · simp [hlt, heq, hb]
          omega
    · by_cases heq : r.publishedAt = c.pAt
      · simp [heq, hb]
      · by_cases hlt : r.publishedAt < c.pAt
        · simp [hlt, heq, hb]
          omega
        · simp [hlt, heq, hb]
          omega
  · intro rows subTo lis pid first r0 e he
    have hk := runUnlistened_mem_keep rows
      ⟨subTo, lis, pid, first, some (encodeCursor r0.publishedAt r0.id)⟩ e he
    rw [cursorFilterOf] at hk
    have hne : encodeCursor r0.publishedAt r0.id ≠ "" := encodeCursor_ne_empty _ _
    rw [if_pos (by simpa using hne)] at hk
    rw [decodeCursor_encodeCursor] at hk
    dsimp only at hk
    rw [cursorKeep] at hk
    simp only [Bool.or_eq_true, Bool.and_eq_true, decide_eq_true_eq, beq_iff_eq] at hk
    rcases hk with h | ⟨h1, h2⟩
    · exact Or.inl h
    · exact Or.inr ⟨h1, h2⟩

/-- C7 witness: feeding the cursor of the row `("b", 5)` back returns only
the strictly older row `("a", 0)`, which satisfies the keyset bound. -/
theorem C7_cursor_roundtrip_keyset_witness :
    (⟨"a", "p", 0⟩ : EpisodeRow) ∈ (runUnlistened [⟨"b", "p", 5⟩, ⟨"a", "p", 0⟩]
      ⟨fun _ => true, fun _ => false, none, none,
        some (encodeCursor (5 : Int) "b")⟩).episodes ∧
    ((0 : Int) < 5 ∨ ((0 : Int) = 5 ∧ strLtB "a" "b" = true)) :=
  ⟨by decide, C7_cursor_roundtrip_keyset.2.2 [⟨"b", "p", 5⟩, ⟨"a", "p", 0⟩]
    (fun _ => true) (fun _ => false) none none ⟨"b", "p", 5⟩ ⟨"a", "p", 0⟩ (by decide)⟩
